import Mathlib

/-!
Verification of the ccpm meeting intake-and-scheduling engine
(scripts/inbox-monitor: calendar_pg.py, scheduler_pg.py, idle_monitor.py).

Shallow embedding conventions:
- Times (`start_time`, `end_time`, `created_at`, `now`) are integers counting
  seconds; `timedelta(hours=1)` is 3600, `timedelta(minutes=10)` is 600.
- The database table `meetings` is a `Calendar`: a list of rows plus the next
  SERIAL id.  SQL `ORDER BY start_time ASC` is a stable insertion sort by
  `start_time`; `ORDER BY created_at DESC LIMIT 1` is a maximum by
  `created_at`.
- The lifecycle statuses stored by the engine form the closed enumeration
  `Status`.  scheduler_pg.py writes the string "bot_spawned" on successful
  bot spawn; that status is the one the specification calls "joined".
- RSVP sends and Kubernetes job creation are external collaborators; they are
  modelled as emitted `Effect` values, and the outcome of a spawn attempt is
  an oracle `spawnOk : Nat -> Bool` indexed by meeting id.
-/

namespace CCPM

/-- Lifecycle statuses written by the engine (calendar_pg.py / scheduler_pg.py).
`completed` is written by the out-of-scope recorder but read by the engine's
conflict and cancellation filters. -/
inductive Status
  | pending
  | joining
  | bot_spawned
  | spawn_failed
  | missed
  | declined
  | cancelled
  | completed
deriving DecidableEq, Repr

/-- Row of the `meetings` table (dataclass `Meeting` in calendar_pg.py). -/
structure Meeting where
  id : Nat
  project : String
  title : String
  start_time : Int
  end_time : Option Int
  join_url : String
  platform : String
  from_address : String
  to_address : String
  status : Status
  message_id : String
  created_at : Int
  raw_ics : String
  uid : String
deriving DecidableEq, Repr

/-- The `meetings` table with its SERIAL id counter. -/
structure Calendar where
  rows : List Meeting
  nextId : Nat
deriving DecidableEq, Repr

/-- Parsed invite (class `MeetingInvite` in monitor.py). -/
structure MeetingInvite where
  project : String
  to_address : String
  from_address : String
  title : String
  start_time : Option Int
  end_time : Option Int
  join_url : String
  raw_ics : String
  message_id : String
  uid : String
  method : String
deriving DecidableEq, Repr

/-- Outbound side effects of the intake pipeline and join scheduler:
RSVP accept/decline requests and meeting-bot launches (K8s job creation). -/
inductive Effect
  | rsvpAccept (invite : MeetingInvite)
  | rsvpDecline (invite : MeetingInvite) (reason : String)
  | launch (meetingId : Nat)
deriving DecidableEq, Repr

/-- Scheduler configuration (constructor arguments of `MeetingScheduler`). -/
structure SchedulerCfg where
  send_rsvp : Bool
  join_before_minutes : Int
deriving DecidableEq, Repr

/-- Boolean prefix test on character lists (kernel-reducible). -/
def isPrefixOfB : List Char → List Char → Bool
  | [], _ => true
  | _ :: _, [] => false
  | a :: as, b :: bs => a == b && isPrefixOfB as bs

/-- Boolean substring test on character lists (kernel-reducible). -/
def containsSub : List Char → List Char → Bool
  | hay, pat =>
    match hay with
    | [] => pat.isEmpty
    | _ :: rest => isPrefixOfB pat hay || containsSub rest pat

/-- Python `needle in haystack` on strings. -/
def strContains (hay pat : String) : Bool :=
  containsSub hay.data pat.data

/-- MeetingCalendar._detect_platform (calendar_pg.py lines 151-159). -/
def detect_platform (join_url : String) : String :=
  if strContains join_url "meet.google.com" then "google_meet"
  else if strContains join_url "teams.microsoft.com" then "teams"
  else if strContains join_url "zoom.us" then "zoom"
  else "unknown"

/-- MeetingCalendar.add_meeting (calendar_pg.py lines 161-218): insert the row,
returning the new id, or `none` when the UNIQUE constraint on `message_id`
fires (IntegrityError is caught and absorbed). -/
def add_meeting (cal : Calendar) (m : Meeting) : Calendar × Option Nat :=
  if cal.rows.any (fun r => r.message_id == m.message_id) then
    (cal, none)
  else
    ({ rows := cal.rows ++
        [{ m with
           id := cal.nextId
           platform := if m.platform = "" then detect_platform m.join_url else m.platform }]
       nextId := cal.nextId + 1 },
      some cal.nextId)

/-- MeetingCalendar.update_status (calendar_pg.py lines 397-411):
`UPDATE meetings SET status = ? WHERE id = ?` — unconditional, no status
guard. -/
def update_status (cal : Calendar) (meeting_id : Nat) (status : Status) : Calendar :=
  { cal with
    rows := cal.rows.map (fun r => if r.id = meeting_id then { r with status := status } else r) }

/-- Sort relation used to embed SQL `ORDER BY start_time ASC`. -/
def startLE (a b : Meeting) : Prop := a.start_time ≤ b.start_time

instance : DecidableRel startLE := fun a b => Int.decLe a.start_time b.start_time

instance : IsTotal Meeting startLE := ⟨fun a b => Int.le_total a.start_time b.start_time⟩

instance : IsTrans Meeting startLE := ⟨fun _ _ _ h1 h2 => le_trans h1 h2⟩

/-- Embedding of SQL `ORDER BY start_time ASC` over a result set. -/
def sortByStart (l : List Meeting) : List Meeting :=
  l.insertionSort startLE

/-- WHERE clause of MeetingCalendar.get_upcoming (calendar_pg.py lines 220-244):
status is 'pending' and (start in [past_cutoff, cutoff], or already started and
not yet ended). -/
def upcomingPred (now cutoff past_cutoff : Int) (m : Meeting) : Bool :=
  m.status == .pending &&
    ((decide (m.start_time ≤ cutoff) && decide (m.start_time ≥ past_cutoff)) ||
      (decide (m.start_time < now) &&
        (match m.end_time with
         | none => true
         | some e => decide (e > now))))

/-- MeetingCalendar.get_upcoming (calendar_pg.py lines 220-261):
`cutoff = now + minutes_ahead`, `past_cutoff = now - 10 minutes`. -/
def get_upcoming (cal : Calendar) (now : Int) (minutes_ahead : Int) : List Meeting :=
  let cutoff := now + 60 * minutes_ahead
  let past_cutoff := now - 600
  sortByStart (cal.rows.filter (upcomingPred now cutoff past_cutoff))

/-- Statuses excluded from conflict checks (calendar_pg.py line 353). -/
def excluded_statuses : List Status := [.completed, .cancelled, .missed, .declined]

/-- WHERE clause of MeetingCalendar.check_conflicts (calendar_pg.py lines
358-368): non-excluded status, `start_time < end'` and
`(end_time > start OR (end_time IS NULL AND start_time + 1h > start))`,
optionally `id != exclude_id`. -/
def conflictPred (start_time endv : Int) (exclude_id : Option Nat) (m : Meeting) : Bool :=
  decide (m.status ∉ excluded_statuses) &&
    decide (m.start_time < endv) &&
    (match m.end_time with
     | some e => decide (e > start_time)
     | none => decide (m.start_time + 3600 > start_time)) &&
    (match exclude_id with
     | some ex => decide (m.id ≠ ex)
     | none => true)

/-- MeetingCalendar.check_conflicts (calendar_pg.py lines 336-395); a missing
end time defaults to one hour after the start for the query only. -/
def check_conflicts (cal : Calendar) (start_time : Int) (end_time : Option Int)
    (exclude_id : Option Nat) : List Meeting :=
  let endv := end_time.getD (start_time + 3600)
  sortByStart (cal.rows.filter (conflictPred start_time endv exclude_id))

/-- Embedding of SQL `ORDER BY created_at DESC LIMIT 1`: a row of maximal
`created_at` (the first such row in table order; ties are unspecified in SQL). -/
def latest_created : List Meeting → Option Meeting
  | [] => none
  | m :: rest =>
    match latest_created rest with
    | none => some m
    | some m' => if m'.created_at > m.created_at then some m' else some m

/-- MeetingCalendar.get_by_uid (calendar_pg.py lines 305-334): empty uid
short-circuits to `None` before any query; otherwise the most recently
created row with that uid. -/
def get_by_uid (cal : Calendar) (uid : String) : Option Meeting :=
  if uid = "" then none
  else latest_created (cal.rows.filter (fun m => m.uid == uid))

/-- Decline reason built in sync_inbox / process_invite (scheduler_pg.py lines
102-106 and 404-407): up to 3 conflicting titles, then " (+N more)". -/
def conflict_reason (conflicts : List Meeting) : String :=
  let titles := String.intercalate ", " ((conflicts.take 3).map (fun m => m.title))
  let titles :=
    if conflicts.length > 3 then
      titles ++ " (+" ++ toString (conflicts.length - 3) ++ " more)"
    else titles
  "Scheduling conflict with: " ++ titles

/-- The `Meeting(...)` literal built from an invite in sync_inbox /
process_invite (platform is left "" and auto-detected by add_meeting; id is
assigned by the store). -/
def invite_to_meeting (invite : MeetingInvite) (start : Int) (status : Status)
    (now : Int) : Meeting :=
  { id := 0
    project := invite.project
    title := invite.title
    start_time := start
    end_time := invite.end_time
    join_url := invite.join_url
    platform := ""
    from_address := invite.from_address
    to_address := invite.to_address
    status := status
    message_id := invite.message_id
    created_at := now
    raw_ics := invite.raw_ics
    uid := invite.uid }

/-- MeetingScheduler._handle_cancellation (scheduler_pg.py lines 167-184):
no-op on empty uid; otherwise cancel the matched meeting unless it is already
'cancelled' or 'completed'; no-op when no meeting matches. -/
def handle_cancellation (cal : Calendar) (invite : MeetingInvite) : Calendar :=
  if invite.uid = "" then cal
  else
    match get_by_uid cal invite.uid with
    | some existing =>
      if existing.status = .cancelled ∨ existing.status = .completed then cal
      else update_status cal existing.id .cancelled
    | none => cal

/-- MeetingScheduler.trigger_join (scheduler_pg.py lines 191-287): set status
'joining' (unconditionally), attempt to create the bot job, then set
'bot_spawned' on success (emitting the launch) or 'spawn_failed' on failure. -/
def trigger_join (cal : Calendar) (m : Meeting) (spawnOk : Bool) :
    Calendar × List Effect :=
  let cal1 := update_status cal m.id .joining
  if spawnOk then
    (update_status cal1 m.id .bot_spawned, [.launch m.id])
  else
    (update_status cal1 m.id .spawn_failed, [])

/-- MeetingScheduler.check_upcoming (scheduler_pg.py lines 186-189). -/
def check_upcoming (cfg : SchedulerCfg) (cal : Calendar) (now : Int) : List Meeting :=
  get_upcoming cal now (cfg.join_before_minutes + 1)

/-- MeetingScheduler._check_and_join_upcoming (scheduler_pg.py lines 472-476):
fetch the due meetings once, then trigger each in order. -/
def check_and_join (cfg : SchedulerCfg) (spawnOk : Nat → Bool) (cal : Calendar)
    (now : Int) : Calendar × List Effect :=
  (check_upcoming cfg cal now).foldl
    (fun acc m =>
      let r := trigger_join acc.1 m (spawnOk m.id)
      (r.1, acc.2 ++ r.2))
    (cal, [])

/-- MeetingScheduler.process_invite (scheduler_pg.py lines 352-470): the
push-path intake pipeline, including the immediate-join shortcut after a
successful pending insert. -/
def process_invite (cfg : SchedulerCfg) (spawnOk : Nat → Bool) (cal : Calendar)
    (now : Int) (invite : MeetingInvite) : Calendar × List Effect :=
  if invite.method = "CANCEL" then
    (handle_cancellation cal invite, [])
  else if invite.join_url = "" then (cal, [])
  else
    match invite.start_time with
    | none => (cal, [])
    | some start =>
      if (match invite.end_time with
          | some e => decide (e < now)
          | none => false) then
        -- meeting already ended: record as missed, no RSVP
        let r := add_meeting cal (invite_to_meeting invite start .missed now)
        (r.1, [])
      else
        let conflicts := check_conflicts cal start invite.end_time none
        if conflicts.isEmpty then
          let r := add_meeting cal (invite_to_meeting invite start .pending now)
          match r.2 with
          | none => (r.1, [])
          | some _ =>
            let effs := if cfg.send_rsvp then [Effect.rsvpAccept invite] else []
            let time_until := start - now
            if time_until < (cfg.join_before_minutes + 1) * 60 ∧ time_until ≥ 0 then
              let j := check_and_join cfg spawnOk r.1 now
              (j.1, effs ++ j.2)
            else if time_until < 0 then
              if (match invite.end_time with
                  | none => true
                  | some e => decide (e > now)) then
                let j := check_and_join cfg spawnOk r.1 now
                (j.1, effs ++ j.2)
              else (r.1, effs)
            else (r.1, effs)
        else
          let reason := conflict_reason conflicts
          let r := add_meeting cal (invite_to_meeting invite start .declined now)
          match r.2 with
          | none => (r.1, [])
          | some _ =>
            (r.1, if cfg.send_rsvp then [Effect.rsvpDecline invite reason] else [])

/-- Loop body of MeetingScheduler.sync_inbox for one invite (scheduler_pg.py
lines 55-157): identical branch structure to process_invite but with no
immediate-join shortcut. -/
def sync_invite_step (cfg : SchedulerCfg) (cal : Calendar) (now : Int)
    (invite : MeetingInvite) : Calendar × List Effect :=
  if invite.method = "CANCEL" then
    (handle_cancellation cal invite, [])
  else if invite.join_url = "" then (cal, [])
  else
    match invite.start_time with
    | none => (cal, [])
    | some start =>
      if (match invite.end_time with
          | some e => decide (e < now)
          | none => false) then
        let r := add_meeting cal (invite_to_meeting invite start .missed now)
        (r.1, [])
      else
        let conflicts := check_conflicts cal start invite.end_time none
        if conflicts.isEmpty then
          let r := add_meeting cal (invite_to_meeting invite start .pending now)
          match r.2 with
          | none => (r.1, [])
          | some _ => (r.1, if cfg.send_rsvp then [Effect.rsvpAccept invite] else [])
        else
          let reason := conflict_reason conflicts
          let r := add_meeting cal (invite_to_meeting invite start .declined now)
          match r.2 with
          | none => (r.1, [])
          | some _ =>
            (r.1, if cfg.send_rsvp then [Effect.rsvpDecline invite reason] else [])

/-- MeetingScheduler.sync_inbox (scheduler_pg.py lines 46-165): fold the
per-invite step over the fetched invites. -/
def sync_inbox (cfg : SchedulerCfg) (cal : Calendar) (now : Int)
    (invites : List MeetingInvite) : Calendar × List Effect :=
  invites.foldl
    (fun acc inv =>
      let r := sync_invite_step cfg acc.1 now inv
      (r.1, acc.2 ++ r.2))
    (cal, [])

/-! Connection supervisor (idle_monitor.py).  Message UIDs are naturals; a
mailbox search result is the UID list in mailbox order (ascending). -/

/-- IdleMonitor._get_latest_uid (idle_monitor.py lines 97-104): the last UID
of the search result. -/
def latest_uid (uids : List Nat) : Option Nat := uids.getLast?

/-- IdleMonitor._process_new_messages (idle_monitor.py lines 106-131): with a
cursor, process only the UIDs strictly after its first occurrence; if the
cursor is absent from the window (or there is no cursor), process the whole
window.  Returns the processed UIDs in order. -/
def process_new_messages (uids : List Nat) (since_uid : Option Nat) : List Nat :=
  match since_uid with
  | none => uids
  | some u =>
    if u ∈ uids then (uids.dropWhile (fun x => x ≠ u)).tail
    else uids

/-- Cursor update performed by the processing loop of _process_new_messages
(idle_monitor.py lines 126-128): `last_seen_uid` becomes the last processed
UID, or keeps its value when nothing was processed. -/
def cursor_after (processed : List Nat) (cursor : Option Nat) : Option Nat :=
  match processed.getLast? with
  | some u => some u
  | none => cursor

/-- One wait-notify-catch-up cycle of IdleMonitor._idle_loop (idle_monitor.py
lines 187-242): after the IDLE wait ends, run _process_new_messages from the
current cursor.  Returns the processed UIDs and the new cursor. -/
def idle_cycle (uids : List Nat) (cursor : Option Nat) : List Nat × Option Nat :=
  let processed := process_new_messages uids cursor
  (processed, cursor_after processed cursor)

/-- The (re)connect body of IdleMonitor.run (idle_monitor.py lines 274-287):
after every successful connect — first connect and reconnects alike — the
cursor is reset to the latest UID of the mailbox, and no catch-up processing
is performed before re-entering the IDLE loop. -/
def run_reconnect (uids : List Nat) : Option Nat := latest_uid uids

/-! Fine-grained model of MeetingScheduler.trigger_join for the concurrency
claim: the periodic scan and the intake shortcut can each run trigger_join on
the same due meeting from two execution contexts.  A thread's execution is the
step list [setJoining, createJob, setFinal]; a concurrent execution is any
interleaving of the two step lists, acting on the shared store. -/

/-- The three store/collaborator steps of one trigger_join run
(scheduler_pg.py lines 191-287). -/
inductive JoinStep
  | setJoining
  | createJob
  | setFinal
deriving DecidableEq, Repr

/-- The step sequence of a single trigger_join run. -/
def trigger_prog : List JoinStep := [.setJoining, .createJob, .setFinal]

/-- Shared state of the race model: the store plus the launches performed so
far (each createJob that succeeds launches one bot). -/
structure RaceState where
  cal : Calendar
  launches : List Nat
deriving DecidableEq, Repr

/-- Semantics of one trigger_join step on the shared store.  Faithful to the
source: setJoining is the unconditional `UPDATE meetings SET status='joining'
WHERE id=?` with no status guard, and nothing in trigger_join re-checks the
status before createJob. -/
def trigger_step (mid : Nat) (spawnOk : Bool) (st : RaceState) : JoinStep → RaceState
  | .setJoining => { st with cal := update_status st.cal mid .joining }
  | .createJob => if spawnOk then { st with launches := st.launches ++ [mid] } else st
  | .setFinal =>
    { st with
      cal := update_status st.cal mid (if spawnOk then .bot_spawned else .spawn_failed) }

/-- Execute a schedule of trigger_join steps against the shared store. -/
def run_steps (mid : Nat) (spawnOk : Bool) (steps : List JoinStep) (st : RaceState) :
    RaceState :=
  steps.foldl (trigger_step mid spawnOk) st

/-- `Interleaves l xs ys`: `l` is an interleaving of `xs` and `ys` (each
thread's steps stay in order; the scheduler picks which thread moves). -/
inductive Interleaves : List JoinStep → List JoinStep → List JoinStep → Prop
  | nil : Interleaves [] [] []
  | left {l xs ys} (x : JoinStep) : Interleaves l xs ys → Interleaves (x :: l) (x :: xs) ys
  | right {l xs ys} (y : JoinStep) : Interleaves l xs ys → Interleaves (y :: l) xs (y :: ys)

/-- Modelled from the spec: the guarded compare-and-set transition the
specification requires of `set_status` ("UPDATE ... WHERE id = ? AND
status = <expected>"), for comparison with the code's unconditional
`update_status`.  Returns the store and whether the guarded write hit a row. -/
def update_status_guarded (cal : Calendar) (meeting_id : Nat) (expected new : Status) :
    Calendar × Bool :=
  (({ cal with
      rows := cal.rows.map (fun r =>
        if r.id = meeting_id ∧ r.status = expected then { r with status := new } else r) }),
    cal.rows.any (fun r => r.id == meeting_id && r.status == expected))

/-! Example data used by the boundary instances and claim witnesses. -/

/-- Existing meeting A = [10:00, 11:00) on the example day (seconds of day). -/
def meetA : Meeting :=
  { id := 1, project := "proj", title := "A", start_time := 36000,
    end_time := some 39600, join_url := "https://meet.google.com/aaa",
    platform := "google_meet", from_address := "o@x", to_address := "proj@x",
    status := .pending, message_id := "msg-A", created_at := 0, raw_ics := "",
    uid := "uid-A" }

/-- Existing meeting B = [10:30, 10:45). -/
def meetB : Meeting :=
  { meetA with
    id := 2
    title := "B"
    start_time := 37800
    end_time := some 38700
    message_id := "msg-B"
    uid := "uid-B" }

/-- Existing meeting C = [11:00, 12:00). -/
def meetC : Meeting :=
  { meetA with
    id := 3
    title := "C"
    start_time := 39600
    end_time := some 43200
    message_id := "msg-C"
    uid := "uid-C" }

/-- Store holding only meeting A. -/
def calA : Calendar := { rows := [meetA], nextId := 4 }

/-- Store holding only meeting B. -/
def calB : Calendar := { rows := [meetB], nextId := 4 }

/-- Store holding only meeting C. -/
def calC : Calendar := { rows := [meetC], nextId := 4 }

/-- A CANCEL invite carrying no iCalendar UID. -/
def cancelNoUid : MeetingInvite :=
  { project := "p"
    to_address := "t"
    from_address := "f"
    title := "T"
    start_time := none
    end_time := none
    join_url := ""
    raw_ics := ""
    message_id := "mX"
    uid := ""
    method := "CANCEL" }

/-- The schedule in which the scan and the shortcut alternate step by step. -/
def sched_alt : List JoinStep :=
  [.setJoining, .setJoining, .createJob, .createJob, .setFinal, .setFinal]

/-- A CANCEL invite for uid-A delivered while meeting A is pending. -/
def cancelA : MeetingInvite :=
  { cancelNoUid with
    uid := "uid-A"
    message_id := "msg-cancel-A" }

/-! Derived notions used to state and prove the intake claims. -/

/-- Some stored row already carries this ingestion key (message_id). -/
def hasMsg (cal : Calendar) (x : String) : Prop := ∃ r ∈ cal.rows, r.message_id = x

/-- The row actually stored for an invite: id from the SERIAL counter,
platform auto-detected from the join URL (invite rows are built with
platform = ""). -/
def stored_row (cal : Calendar) (invite : MeetingInvite) (start : Int)
    (status : Status) (now : Int) : Meeting :=
  { invite_to_meeting invite start status now with
    id := cal.nextId
    platform := detect_platform invite.join_url }

/-- An already-ended REQUEST invite for a fresh message id. -/
def endedInvite : MeetingInvite :=
  { project := "proj"
    to_address := "proj@x"
    from_address := "o@x"
    title := "Old"
    start_time := some 100
    end_time := some 200
    join_url := "https://zoom.us/j/1"
    raw_ics := ""
    message_id := "msg-old"
    uid := "uid-old"
    method := "REQUEST" }

/-! Observations of a store: ingestion keys, RSVP effects. -/

/-- The stored ingestion keys, in table order. -/
def msgIds (cal : Calendar) : List String := cal.rows.map (fun r => r.message_id)

/-- The store after a fresh insert of the row built from an invite. -/
def inserted_cal (cal : Calendar) (invite : MeetingInvite) (start : Int)
    (status : Status) (now : Int) : Calendar :=
  { rows := cal.rows ++ [stored_row cal invite start status now]
    nextId := cal.nextId + 1 }

/-- The RSVP requests among a list of effects (launches filtered out). -/
def rsvpOnly (effs : List Effect) : List Effect :=
  effs.filter (fun e => match e with | .launch _ => false | _ => true)

/-- A REQUEST invite overlapping meeting A (no end time, starts 10:30). -/
def inviteOverlap : MeetingInvite :=
  { project := "proj"
    to_address := "proj@x"
    from_address := "o@x"
    title := "Clash"
    start_time := some 37800
    end_time := none
    join_url := "https://zoom.us/j/2"
    raw_ics := ""
    message_id := "msg-clash"
    uid := "uid-clash"
    method := "REQUEST" }

/-- A fresh actionable REQUEST with no conflicts in an empty store. -/
def inviteFresh : MeetingInvite :=
  { inviteOverlap with
    title := "Fresh"
    start_time := some 50000
    message_id := "msg-fresh"
    uid := "uid-fresh" }

/-! Lifecycle state machine: tracking the status of one row through the
engine's operations. -/

/-- Status of the row with the given id (the unique such row under WF). -/
def rowStatus (cal : Calendar) (i : Nat) : Option Status :=
  (cal.rows.find? (fun r => r.id == i)).map (fun r => r.status)

/-- Store invariants maintained by the SERIAL primary key: all row ids are
below the counter and pairwise distinct. -/
def WF (cal : Calendar) : Prop :=
  (∀ r ∈ cal.rows, r.id < cal.nextId) ∧ (cal.rows.map (fun r => r.id)).Nodup

/-- The status transitions the engine is allowed to perform on an existing
row: the join path pending → joining → {bot_spawned, spawn_failed} (the
specification's "joined" success state is stored as bot_spawned), and
cancellation from any status other than cancelled and completed. -/
inductive AllowedStep : Status → Status → Prop
  | start_join : AllowedStep .pending .joining
  | spawn_ok : AllowedStep .joining .bot_spawned
  | spawn_fail : AllowedStep .joining .spawn_failed
  | cancel (s : Status) (h1 : s ≠ .cancelled) (h2 : s ≠ .completed) :
      AllowedStep s .cancelled

/-- The store-mutating operations of the engine: push-path ingestion
(process_invite), poll-path ingestion (the sync_inbox loop body), and the
periodic due-meeting scan. -/
inductive EngineOp
  | ingest (now : Int) (invite : MeetingInvite)
  | syncOne (now : Int) (invite : MeetingInvite)
  | scan (now : Int)

/-- Apply one engine operation to the store. -/
def apply_op (cfg : SchedulerCfg) (spawnOk : Nat → Bool) (cal : Calendar) :
    EngineOp → Calendar
  | .ingest now invite => (process_invite cfg spawnOk cal now invite).1
  | .syncOne now invite => (sync_invite_step cfg cal now invite).1
  | .scan now => (check_and_join cfg spawnOk cal now).1

/-- Apply a sequence of engine operations to the store. -/
def apply_ops (cfg : SchedulerCfg) (spawnOk : Nat → Bool) (ops : List EngineOp)
    (cal : Calendar) : Calendar :=
  ops.foldl (fun c op => apply_op cfg spawnOk c op) cal

/-- Meeting A already recorded in the terminal status missed. -/
def meetMissed : Meeting := { meetA with status := .missed }

/-- Store holding only the missed record. -/
def calMissed : Calendar := { rows := [meetMissed], nextId := 4 }

/-! Theorems.  First, helper lemmas about the store embedding. -/

theorem mem_sortByStart {m : Meeting} {l : List Meeting} : m ∈ sortByStart l ↔ m ∈ l :=
  (List.perm_insertionSort startLE l).mem_iff

theorem sorted_sortByStart (l : List Meeting) : List.Sorted startLE (sortByStart l) :=
  List.sorted_insertionSort startLE l

theorem conflictPred_eq_true_iff (st endv : Int) (ex : Option Nat) (m : Meeting) :
    conflictPred st endv ex m = true ↔
      (m.status ∉ excluded_statuses ∧ m.start_time < endv ∧
        ((∃ e, m.end_time = some e ∧ e > st) ∨
          (m.end_time = none ∧ m.start_time + 3600 > st)) ∧
        (∀ i, ex = some i → m.id ≠ i)) := by
  unfold conflictPred
  rcases hm : m.end_time with _ | e <;> rcases hex : ex with _ | i <;>
    simp [hm, hex, Bool.and_eq_true, decide_eq_true_iff, and_assoc]

theorem upcomingPred_eq_true_iff (now cutoff past_cutoff : Int) (m : Meeting) :
    upcomingPred now cutoff past_cutoff m = true ↔
      (m.status = .pending ∧
        ((m.start_time ≤ cutoff ∧ m.start_time ≥ past_cutoff) ∨
          (m.start_time < now ∧
            (m.end_time = none ∨ ∃ e, m.end_time = some e ∧ e > now)))) := by
  unfold upcomingPred
  rcases hm : m.end_time with _ | e <;>
    simp [hm, Bool.and_eq_true, Bool.or_eq_true, decide_eq_true_iff, and_assoc]

theorem mem_get_upcoming_iff (cal : Calendar) (now minutes_ahead : Int) (m : Meeting) :
    m ∈ get_upcoming cal now minutes_ahead ↔
      (m ∈ cal.rows ∧ m.status = .pending ∧
        ((now - 600 ≤ m.start_time ∧ m.start_time ≤ now + 60 * minutes_ahead) ∨
          (m.start_time < now ∧
            (m.end_time = none ∨ ∃ e, m.end_time = some e ∧ e > now)))) := by
  unfold get_upcoming
  rw [mem_sortByStart, List.mem_filter, upcomingPred_eq_true_iff]
  constructor
  · rintro ⟨h1, h2, h3⟩
    exact ⟨h1, h2, h3.imp (fun h => ⟨h.2, h.1⟩) id⟩
  · rintro ⟨h1, h2, h3⟩
    exact ⟨h1, h2, h3.imp (fun h => ⟨h.2, h.1⟩) id⟩

/-- C4: check_conflicts returns exactly the stored rows with non-excluded
status (minus exclude_id) satisfying `start < end'` and `(end > start OR
(end IS NULL AND start + 1h > start))` with `end'` defaulting to start + 1
hour; touching windows do not conflict, overlapping ones do, and a missing
candidate end time defaults to one hour. -/
theorem C4_check_conflicts_exact :
    (∀ (cal : Calendar) (st : Int) (en : Option Int) (ex : Option Nat) (m : Meeting),
      m ∈ check_conflicts cal st en ex ↔
        (m ∈ cal.rows ∧ m.status ∉ excluded_statuses ∧
          m.start_time < en.getD (st + 3600) ∧
          ((∃ e, m.end_time = some e ∧ e > st) ∨
            (m.end_time = none ∧ m.start_time + 3600 > st)) ∧
          (∀ i, ex = some i → m.id ≠ i))) ∧
    check_conflicts calA 39600 (some 43200) none = [] ∧
    check_conflicts calA 37800 (some 41400) none = [meetA] ∧
    check_conflicts calB 36000 none none = [meetB] ∧
    check_conflicts calC 36000 none none = [] := by
  refine ⟨?_, by decide, by decide, by decide, by decide⟩
  intro cal st en ex m
  unfold check_conflicts
  rw [mem_sortByStart, List.mem_filter, conflictPred_eq_true_iff]

theorem C4_check_conflicts_exact_witness :
    meetA ∈ check_conflicts calA 37800 (some 41400) none :=
  (C4_check_conflicts_exact.1 calA 37800 (some 41400) none meetA).mpr
    ⟨by decide, by decide, by decide, Or.inl ⟨39600, rfl, by decide⟩,
      fun i h => Option.noConfusion h⟩

/-- C8: get_upcoming returns exactly the pending rows whose start lies in
[now - 10 min, now + minutes_ahead] or whose window straddles now, sorted by
start time ascending; rows in any other status are never returned. -/
theorem C8_get_upcoming_exact :
    (∀ (cal : Calendar) (now minutes_ahead : Int) (m : Meeting),
      m ∈ get_upcoming cal now minutes_ahead ↔
        (m ∈ cal.rows ∧ m.status = .pending ∧
          ((now - 600 ≤ m.start_time ∧ m.start_time ≤ now + 60 * minutes_ahead) ∨
            (m.start_time < now ∧
              (m.end_time = none ∨ ∃ e, m.end_time = some e ∧ e > now))))) ∧
    (∀ (cal : Calendar) (now minutes_ahead : Int),
      List.Sorted startLE (get_upcoming cal now minutes_ahead)) ∧
    (∀ (cal : Calendar) (now minutes_ahead : Int) (m : Meeting),
      m ∈ get_upcoming cal now minutes_ahead → m.status = .pending) := by
  exact ⟨mem_get_upcoming_iff, fun cal now m => sorted_sortByStart _,
    fun cal now ma m hm => ((mem_get_upcoming_iff cal now ma m).mp hm).2.1⟩

theorem C8_get_upcoming_exact_witness :
    meetA ∈ get_upcoming calA 36060 5 :=
  (C8_get_upcoming_exact.1 calA 36060 5 meetA).mpr
    ⟨by decide, by decide, Or.inl (by decide)⟩

/-- C10: a CANCEL invite with empty uid is a complete no-op: cancellation
handling returns the store unchanged (before any lookup), ingestion of such a
CANCEL produces no effects, and get_by_uid on the empty string is `none`. -/
theorem C10_empty_uid_cancel_noop :
    ∀ (cfg : SchedulerCfg) (spawnOk : Nat → Bool) (cal : Calendar) (now : Int)
      (invite : MeetingInvite),
      invite.uid = "" →
        handle_cancellation cal invite = cal ∧
        get_by_uid cal "" = none ∧
        (invite.method = "CANCEL" →
          process_invite cfg spawnOk cal now invite = (cal, [])) := by
  intro cfg spawnOk cal now invite huid
  have h1 : handle_cancellation cal invite = cal := by
    unfold handle_cancellation
    rw [if_pos huid]
  refine ⟨h1, by unfold get_by_uid; rw [if_pos rfl], ?_⟩
  intro hm
  unfold process_invite
  rw [if_pos hm, h1]

theorem C10_empty_uid_cancel_noop_witness :
    handle_cancellation calA cancelNoUid = calA :=
  (C10_empty_uid_cancel_noop ⟨true, 1⟩ (fun _ => true) calA 0 cancelNoUid rfl).1

/-- C9: the supervisor's reconnect path does NOT resume catch-up from the last
confirmed cursor.  With the cursor at UID 2 and UID 3 arriving while
disconnected, run()'s reconnect body resets the cursor to the mailbox's
latest UID (3) and performs no catch-up, so the following idle cycle
processes nothing and message 3 is never processed — whereas catch-up from
the true cursor would have processed exactly [3]. -/
theorem C9_reconnect_skips_disconnect_gap :
    run_reconnect [1, 2, 3] = some 3 ∧
    process_new_messages [1, 2, 3] (some 2) = [3] ∧
    (idle_cycle [1, 2, 3] (run_reconnect [1, 2, 3])).1 = [] ∧
    3 ∉ (idle_cycle [1, 2, 3] (run_reconnect [1, 2, 3])).1 := by
  refine ⟨rfl, by decide, by decide, by decide⟩

/-! Race model lemmas for the at-most-once trigger claim. -/

theorem run_steps_launch_count (mid : Nat) (steps : List JoinStep) (st : RaceState) :
    (run_steps mid true steps st).launches.length
      = st.launches.length + steps.count .createJob := by
  induction steps generalizing st with
  | nil => simp [run_steps]
  | cons s rest ih =>
    have hstep : run_steps mid true (s :: rest) st
        = run_steps mid true rest (trigger_step mid true st s) := rfl
    rw [hstep, ih]
    cases s <;> simp [trigger_step, List.count_cons] <;> omega

theorem interleaves_count (a : JoinStep) {l xs ys : List JoinStep}
    (h : Interleaves l xs ys) : l.count a = xs.count a + ys.count a := by
  induction h with
  | nil => simp
  | left x _ ih => simp [List.count_cons, ih]; omega
  | right y _ ih => simp [List.count_cons, ih]; omega

/-- Coherence of the race model with the coarse operation: one thread's step
sequence, run alone, is exactly trigger_join. -/
theorem run_steps_single_eq_trigger_join (cal : Calendar) (m : Meeting) (ok : Bool) :
    run_steps m.id ok trigger_prog ⟨cal, []⟩
      = ⟨(trigger_join cal m ok).1, if ok then [m.id] else []⟩ := by
  cases ok <;> rfl

/-- C1: the at-most-once trigger property FAILS on the code.  update_status is
an unconditional `UPDATE meetings SET status = ? WHERE id = ?` with no
status guard, and trigger_join never re-checks the status, so under EVERY
interleaving of the periodic scan's trigger_join with the intake shortcut's
trigger_join on the same due meeting, both runs reach job creation: the
join-trigger collaborator is invoked exactly twice, never once. -/
theorem C1_unguarded_update_both_launch :
    ∀ (mid : Nat) (cal : Calendar) (sched : List JoinStep),
      Interleaves sched trigger_prog trigger_prog →
        (run_steps mid true sched ⟨cal, []⟩).launches.length = 2 ∧
        (run_steps mid true sched ⟨cal, []⟩).launches.length ≠ 1 := by
  intro mid cal sched hI
  have h := run_steps_launch_count mid sched ⟨cal, []⟩
  rw [interleaves_count JoinStep.createJob hI] at h
  have hp : trigger_prog.count JoinStep.createJob = 1 := by decide
  rw [hp] at h
  simp only [List.length_nil, Nat.zero_add] at h
  exact ⟨h, by omega⟩

theorem sched_alt_interleaving : Interleaves sched_alt trigger_prog trigger_prog :=
  .left _ (.right _ (.left _ (.right _ (.left _ (.right _ .nil)))))

theorem C1_unguarded_update_both_launch_witness :
    (run_steps 1 true sched_alt ⟨calA, []⟩).launches.length = 2 :=
  (C1_unguarded_update_both_launch 1 calA sched_alt sched_alt_interleaving).1

/-! Lemmas about get_by_uid and update_status for the cancellation claims. -/

theorem latest_created_ne_none : ∀ {l : List Meeting}, l ≠ [] → latest_created l ≠ none := by
  intro l hl
  match l with
  | m :: rest =>
    unfold latest_created
    cases latest_created rest <;> simp <;> split <;> simp

theorem latest_created_mem : ∀ {l : List Meeting} {m : Meeting},
    latest_created l = some m → m ∈ l := by
  intro l
  induction l with
  | nil => intro m h; cases h
  | cons a rest ih =>
    intro m h
    unfold latest_created at h
    split at h
    · cases h
      exact List.mem_cons_self a rest
    next m' hr =>
      split at h
      · cases h
        exact List.mem_cons_of_mem a (ih hr)
      · cases h
        exact List.mem_cons_self a rest

theorem latest_created_max : ∀ {l : List Meeting} {m : Meeting},
    latest_created l = some m → ∀ r ∈ l, r.created_at ≤ m.created_at := by
  intro l
  induction l with
  | nil => intro m h; cases h
  | cons a rest ih =>
    intro m h r hr
    unfold latest_created at h
    split at h
    next hlr =>
      cases h
      rcases List.mem_cons.mp hr with h | h
      · exact h ▸ le_refl _
      · exact absurd hlr (latest_created_ne_none (List.ne_nil_of_mem h))
    next m' hlr =>
      split at h
      next hc =>
        cases h
        rcases List.mem_cons.mp hr with h | h
        · exact h ▸ le_of_lt hc
        · exact ih hlr r h
      next hc =>
        cases h
        rcases List.mem_cons.mp hr with h | h
        · exact h ▸ le_refl _
        · exact le_trans (ih hlr r h) (le_of_not_lt hc)

theorem get_by_uid_spec {cal : Calendar} {uid : String} {m : Meeting}
    (h : get_by_uid cal uid = some m) :
    m ∈ cal.rows ∧ m.uid = uid ∧
      ∀ r ∈ cal.rows, r.uid = uid → r.created_at ≤ m.created_at := by
  unfold get_by_uid at h
  by_cases hu : uid = ""
  · rw [if_pos hu] at h; cases h
  · rw [if_neg hu] at h
    have hmem := latest_created_mem h
    have hmax := latest_created_max h
    have hf := List.mem_filter.mp hmem
    refine ⟨hf.1, by simpa using hf.2, ?_⟩
    intro r hr hru
    exact hmax r (List.mem_filter.mpr ⟨hr, by simp [hru]⟩)

theorem update_status_ids (cal : Calendar) (i : Nat) (s : Status) :
    (update_status cal i s).rows.map (fun r => r.id) = cal.rows.map (fun r => r.id) := by
  unfold update_status
  rw [List.map_map]
  have : ((fun r : Meeting => r.id) ∘
      (fun r : Meeting => if r.id = i then { r with status := s } else r))
        = fun r : Meeting => r.id := by
    funext r
    by_cases h : r.id = i <;> simp [h]
  rw [this]

theorem update_status_nextId (cal : Calendar) (i : Nat) (s : Status) :
    (update_status cal i s).nextId = cal.nextId := rfl

/-- C6: ingesting a CANCEL invite never inserts a row (ids and the id counter
are unchanged) and sends no RSVP; it resolves the most recently created
record with the invite's uid; if that record is not cancelled/completed it is
set to cancelled, and otherwise — or when nothing matches — the store is left
completely unchanged. -/
theorem C6_cancel_resolution :
    ∀ (cfg : SchedulerCfg) (spawnOk : Nat → Bool) (cal : Calendar) (now : Int)
      (invite : MeetingInvite),
      invite.method = "CANCEL" →
        (process_invite cfg spawnOk cal now invite).2 = [] ∧
        (process_invite cfg spawnOk cal now invite).1.rows.map (fun r => r.id)
          = cal.rows.map (fun r => r.id) ∧
        (process_invite cfg spawnOk cal now invite).1.nextId = cal.nextId ∧
        (∀ m, get_by_uid cal invite.uid = some m →
          (m ∈ cal.rows ∧ m.uid = invite.uid ∧
            (∀ r ∈ cal.rows, r.uid = invite.uid → r.created_at ≤ m.created_at) ∧
            (m.status ≠ .cancelled → m.status ≠ .completed →
              ((process_invite cfg spawnOk cal now invite).1
                  = update_status cal m.id .cancelled ∧
                ∀ r ∈ (process_invite cfg spawnOk cal now invite).1.rows,
                  r.id = m.id → r.status = .cancelled)) ∧
            ((m.status = .cancelled ∨ m.status = .completed) →
              (process_invite cfg spawnOk cal now invite).1 = cal))) ∧
        (get_by_uid cal invite.uid = none →
          (process_invite cfg spawnOk cal now invite).1 = cal) := by
  intro cfg spawnOk cal now invite hm
  have hpi : process_invite cfg spawnOk cal now invite
      = (handle_cancellation cal invite, []) := by
    unfold process_invite
    rw [if_pos hm]
  rw [hpi]
  have hhc : ∀ m, get_by_uid cal invite.uid = some m →
      m.status ≠ .cancelled → m.status ≠ .completed →
      handle_cancellation cal invite = update_status cal m.id .cancelled := by
    intro m hg h1 h2
    unfold handle_cancellation
    have hu : invite.uid ≠ "" := by
      intro he
      rw [he] at hg
      unfold get_by_uid at hg
      rw [if_pos rfl] at hg
      cases hg
    rw [if_neg hu, hg]
    dsimp only
    rw [if_neg (by tauto)]
  have hnoop : ∀ m, get_by_uid cal invite.uid = some m →
      (m.status = .cancelled ∨ m.status = .completed) →
      handle_cancellation cal invite = cal := by
    intro m hg hs
    unfold handle_cancellation
    by_cases hu : invite.uid = ""
    · rw [if_pos hu]
    · rw [if_neg hu, hg]
      dsimp only
      rw [if_pos hs]
  have hids : (handle_cancellation cal invite).rows.map (fun r => r.id)
      = cal.rows.map (fun r => r.id) := by
    unfold handle_cancellation
    by_cases hu : invite.uid = ""
    · rw [if_pos hu]
    · rw [if_neg hu]
      cases hg : get_by_uid cal invite.uid with
      | none => rfl
      | some m =>
        dsimp only
        by_cases hs : m.status = .cancelled ∨ m.status = .completed
        · rw [if_pos hs]
        · rw [if_neg hs]
          exact update_status_ids cal m.id .cancelled
  have hnid : (handle_cancellation cal invite).nextId = cal.nextId := by
    unfold handle_cancellation
    by_cases hu : invite.uid = ""
    · rw [if_pos hu]
    · rw [if_neg hu]
      cases hg : get_by_uid cal invite.uid with
      | none => rfl
      | some m =>
        dsimp only
        by_cases hs : m.status = .cancelled ∨ m.status = .completed
        · rw [if_pos hs]
        · rw [if_neg hs]
          rfl
  refine ⟨rfl, hids, hnid, ?_, ?_⟩
  · intro m hg
    obtain ⟨hmem, hmu, hmax⟩ := get_by_uid_spec hg
    refine ⟨hmem, hmu, hmax, ?_, hnoop m hg⟩
    intro h1 h2
    rw [hhc m hg h1 h2]
    refine ⟨rfl, ?_⟩
    intro r hr hrid
    unfold update_status at hr
    obtain ⟨r0, _, hr0⟩ := List.mem_map.mp hr
    by_cases h0 : r0.id = m.id
    · rw [if_pos h0] at hr0
      rw [← hr0]
    · rw [if_neg h0] at hr0
      rw [← hr0] at hrid
      exact absurd hrid h0
  · intro hg
    unfold handle_cancellation
    by_cases hu : invite.uid = ""
    · rw [if_pos hu]
    · rw [if_neg hu, hg]

theorem C6_cancel_resolution_witness :
    (process_invite ⟨true, 1⟩ (fun _ => true) calA 0 cancelA).2 = [] :=
  (C6_cancel_resolution ⟨true, 1⟩ (fun _ => true) calA 0 cancelA rfl).1

theorem any_msg_eq_true_iff (cal : Calendar) (x : String) :
    (cal.rows.any (fun r => r.message_id == x) = true) ↔ hasMsg cal x := by
  simp [List.any_eq_true, hasMsg]

theorem add_meeting_dup {cal : Calendar} {m : Meeting} (h : hasMsg cal m.message_id) :
    add_meeting cal m = (cal, none) := by
  unfold add_meeting
  rw [if_pos ((any_msg_eq_true_iff cal m.message_id).mpr h)]

theorem add_meeting_fresh {cal : Calendar} {m : Meeting} (h : ¬hasMsg cal m.message_id) :
    add_meeting cal m =
      ({ rows := cal.rows ++
          [{ m with
             id := cal.nextId
             platform := if m.platform = "" then detect_platform m.join_url
               else m.platform }]
         nextId := cal.nextId + 1 },
        some cal.nextId) := by
  unfold add_meeting
  rw [if_neg (fun hc => h ((any_msg_eq_true_iff cal m.message_id).mp hc))]

theorem add_meeting_invite_fresh {cal : Calendar} {invite : MeetingInvite}
    (hf : ¬hasMsg cal invite.message_id) (start : Int) (status : Status) (now : Int) :
    add_meeting cal (invite_to_meeting invite start status now)
      = ({ rows := cal.rows ++ [stored_row cal invite start status now]
           nextId := cal.nextId + 1 },
          some cal.nextId) := by
  have hf' : ¬hasMsg cal (invite_to_meeting invite start status now).message_id := hf
  rw [add_meeting_fresh hf']
  rfl

theorem process_invite_skip_url {cfg : SchedulerCfg} {spawnOk : Nat → Bool}
    {cal : Calendar} {now : Int} {invite : MeetingInvite}
    (h : invite.method ≠ "CANCEL") (hj : invite.join_url = "") :
    process_invite cfg spawnOk cal now invite = (cal, []) := by
  unfold process_invite
  rw [if_neg h, if_pos hj]

theorem process_invite_skip_start {cfg : SchedulerCfg} {spawnOk : Nat → Bool}
    {cal : Calendar} {now : Int} {invite : MeetingInvite}
    (h : invite.method ≠ "CANCEL") (hj : invite.join_url ≠ "")
    (hs : invite.start_time = none) :
    process_invite cfg spawnOk cal now invite = (cal, []) := by
  unfold process_invite
  rw [if_neg h, if_neg hj, hs]

theorem process_invite_missed {cfg : SchedulerCfg} {spawnOk : Nat → Bool}
    {cal : Calendar} {now : Int} {invite : MeetingInvite} {st e : Int}
    (h : invite.method ≠ "CANCEL") (hj : invite.join_url ≠ "")
    (hs : invite.start_time = some st) (he : invite.end_time = some e)
    (hlt : e < now) (hf : ¬hasMsg cal invite.message_id) :
    process_invite cfg spawnOk cal now invite
      = ({ rows := cal.rows ++ [stored_row cal invite st .missed now]
           nextId := cal.nextId + 1 }, []) := by
  unfold process_invite
  rw [if_neg h, if_neg hj, hs]
  dsimp only
  rw [he]
  dsimp only
  rw [if_pos (decide_eq_true hlt), add_meeting_invite_fresh hf st .missed now]

theorem sync_invite_step_skip_url {cfg : SchedulerCfg}
    {cal : Calendar} {now : Int} {invite : MeetingInvite}
    (h : invite.method ≠ "CANCEL") (hj : invite.join_url = "") :
    sync_invite_step cfg cal now invite = (cal, []) := by
  unfold sync_invite_step
  rw [if_neg h, if_pos hj]

theorem sync_invite_step_skip_start {cfg : SchedulerCfg}
    {cal : Calendar} {now : Int} {invite : MeetingInvite}
    (h : invite.method ≠ "CANCEL") (hj : invite.join_url ≠ "")
    (hs : invite.start_time = none) :
    sync_invite_step cfg cal now invite = (cal, []) := by
  unfold sync_invite_step
  rw [if_neg h, if_neg hj, hs]

theorem sync_invite_step_missed {cfg : SchedulerCfg}
    {cal : Calendar} {now : Int} {invite : MeetingInvite} {st e : Int}
    (h : invite.method ≠ "CANCEL") (hj : invite.join_url ≠ "")
    (hs : invite.start_time = some st) (he : invite.end_time = some e)
    (hlt : e < now) (hf : ¬hasMsg cal invite.message_id) :
    sync_invite_step cfg cal now invite
      = ({ rows := cal.rows ++ [stored_row cal invite st .missed now]
           nextId := cal.nextId + 1 }, []) := by
  unfold sync_invite_step
  rw [if_neg h, if_neg hj, hs]
  dsimp only
  rw [he]
  dsimp only
  rw [if_pos (decide_eq_true hlt), add_meeting_invite_fresh hf st .missed now]

/-- C7: a non-CANCEL invite lacking a join URL or a start time is skipped by
both ingestion paths — no record, no effect; an actionable invite whose end
time is already past is inserted with status missed and no RSVP is sent. -/
theorem C7_skip_and_missed :
    ∀ (cfg : SchedulerCfg) (spawnOk : Nat → Bool) (cal : Calendar) (now : Int)
      (invite : MeetingInvite),
      invite.method ≠ "CANCEL" →
        ((invite.join_url = "" ∨ invite.start_time = none) →
          (process_invite cfg spawnOk cal now invite = (cal, []) ∧
            sync_invite_step cfg cal now invite = (cal, []))) ∧
        (∀ st e : Int, invite.join_url ≠ "" → invite.start_time = some st →
          invite.end_time = some e → e < now → ¬hasMsg cal invite.message_id →
          (process_invite cfg spawnOk cal now invite
              = ({ rows := cal.rows ++ [stored_row cal invite st .missed now]
                   nextId := cal.nextId + 1 }, []) ∧
            (stored_row cal invite st .missed now).status = .missed ∧
            sync_invite_step cfg cal now invite
              = ({ rows := cal.rows ++ [stored_row cal invite st .missed now]
                   nextId := cal.nextId + 1 }, []))) := by
  intro cfg spawnOk cal now invite h
  constructor
  · intro hcases
    by_cases hj : invite.join_url = ""
    · exact ⟨process_invite_skip_url h hj, sync_invite_step_skip_url h hj⟩
    · have hs : invite.start_time = none := hcases.resolve_left hj
      exact ⟨process_invite_skip_start h hj hs, sync_invite_step_skip_start h hj hs⟩
  · intro st e hj hs he hlt hf
    exact ⟨process_invite_missed h hj hs he hlt hf, rfl,
      sync_invite_step_missed h hj hs he hlt hf⟩

theorem C7_skip_and_missed_witness :
    process_invite ⟨true, 1⟩ (fun _ => true) calA 1000 endedInvite
      = ({ rows := calA.rows ++ [stored_row calA endedInvite 100 .missed 1000]
           nextId := calA.nextId + 1 }, []) :=
  ((C7_skip_and_missed ⟨true, 1⟩ (fun _ => true) calA 1000 endedInvite
      (by decide)).2 100 200 (by decide) rfl rfl (by decide)
      (by unfold hasMsg; decide)).1

theorem hasMsg_iff_mem_msgIds (cal : Calendar) (x : String) :
    hasMsg cal x ↔ x ∈ msgIds cal := by
  simp [hasMsg, msgIds, List.mem_map, eq_comm]

theorem update_status_msgIds (cal : Calendar) (i : Nat) (s : Status) :
    msgIds (update_status cal i s) = msgIds cal := by
  unfold msgIds update_status
  rw [List.map_map]
  have : ((fun r : Meeting => r.message_id) ∘
      (fun r : Meeting => if r.id = i then { r with status := s } else r))
        = fun r : Meeting => r.message_id := by
    funext r
    by_cases h : r.id = i <;> simp [h]
  rw [this]

theorem trigger_join_msgIds (cal : Calendar) (m : Meeting) (ok : Bool) :
    msgIds (trigger_join cal m ok).1 = msgIds cal := by
  unfold trigger_join
  cases ok <;> simp [update_status_msgIds]

theorem trigger_join_effects (cal : Calendar) (m : Meeting) (ok : Bool) :
    ∀ x ∈ (trigger_join cal m ok).2, ∃ mid, x = Effect.launch mid := by
  unfold trigger_join
  cases ok <;> simp

theorem check_and_join_fold_msgIds (cfg : SchedulerCfg) (spawnOk : Nat → Bool) :
    ∀ (ms : List Meeting) (acc : Calendar × List Effect),
      msgIds (ms.foldl
        (fun acc m =>
          let r := trigger_join acc.1 m (spawnOk m.id)
          (r.1, acc.2 ++ r.2)) acc).1 = msgIds acc.1 := by
  intro ms
  induction ms with
  | nil => intro acc; rfl
  | cons m rest ih =>
    intro acc
    rw [List.foldl_cons, ih]
    exact trigger_join_msgIds acc.1 m (spawnOk m.id)

theorem check_and_join_msgIds (cfg : SchedulerCfg) (spawnOk : Nat → Bool)
    (cal : Calendar) (now : Int) :
    msgIds (check_and_join cfg spawnOk cal now).1 = msgIds cal :=
  check_and_join_fold_msgIds cfg spawnOk (check_upcoming cfg cal now) (cal, [])

theorem check_and_join_fold_effects (cfg : SchedulerCfg) (spawnOk : Nat → Bool) :
    ∀ (ms : List Meeting) (acc : Calendar × List Effect),
      (∀ x ∈ acc.2, ∃ mid, x = Effect.launch mid) →
      ∀ x ∈ (ms.foldl
        (fun acc m =>
          let r := trigger_join acc.1 m (spawnOk m.id)
          (r.1, acc.2 ++ r.2)) acc).2, ∃ mid, x = Effect.launch mid := by
  intro ms
  induction ms with
  | nil => intro acc hacc; exact hacc
  | cons m rest ih =>
    intro acc hacc
    rw [List.foldl_cons]
    apply ih
    intro x hx
    rcases List.mem_append.mp hx with hx | hx
    · exact hacc x hx
    · exact trigger_join_effects acc.1 m (spawnOk m.id) x hx

theorem check_and_join_effects (cfg : SchedulerCfg) (spawnOk : Nat → Bool)
    (cal : Calendar) (now : Int) :
    ∀ x ∈ (check_and_join cfg spawnOk cal now).2, ∃ mid, x = Effect.launch mid :=
  check_and_join_fold_effects cfg spawnOk (check_upcoming cfg cal now) (cal, [])
    (fun x hx => absurd hx (List.not_mem_nil x))

/-- Redelivery of a known ingestion key is a complete no-op: every insert
branch hits the UNIQUE constraint, add_meeting returns none, nothing is
written and nothing is sent. -/
theorem process_invite_dup {cfg : SchedulerCfg} {spawnOk : Nat → Bool}
    {cal : Calendar} {now : Int} {invite : MeetingInvite}
    (h : invite.method ≠ "CANCEL") (hdup : hasMsg cal invite.message_id) :
    process_invite cfg spawnOk cal now invite = (cal, []) := by
  unfold process_invite
  rw [if_neg h]
  by_cases hj : invite.join_url = ""
  · rw [if_pos hj]
  · rw [if_neg hj]
    cases hst : invite.start_time with
    | none => rfl
    | some st =>
      dsimp only
      have hdup' : ∀ status, add_meeting cal (invite_to_meeting invite st status now)
          = (cal, none) := fun status => add_meeting_dup hdup
      cases hend : invite.end_time with
      | some e =>
        dsimp only
        by_cases hlt : e < now
        · rw [if_pos (decide_eq_true hlt), hdup' .missed]
        · rw [if_neg (by simp [hlt])]
          by_cases hc : (check_conflicts cal st (some e) none).isEmpty
          · rw [if_pos hc, hdup' .pending]
          · rw [if_neg hc, hdup' .declined]
      | none =>
        dsimp only
        by_cases hc : (check_conflicts cal st none none).isEmpty
        · rw [if_pos hc, hdup' .pending]
          rfl
        · rw [if_neg hc, hdup' .declined]
          rfl

theorem sync_invite_step_dup {cfg : SchedulerCfg}
    {cal : Calendar} {now : Int} {invite : MeetingInvite}
    (h : invite.method ≠ "CANCEL") (hdup : hasMsg cal invite.message_id) :
    sync_invite_step cfg cal now invite = (cal, []) := by
  unfold sync_invite_step
  rw [if_neg h]
  by_cases hj : invite.join_url = ""
  · rw [if_pos hj]
  · rw [if_neg hj]
    cases hst : invite.start_time with
    | none => rfl
    | some st =>
      dsimp only
      have hdup' : ∀ status, add_meeting cal (invite_to_meeting invite st status now)
          = (cal, none) := fun status => add_meeting_dup hdup
      cases hend : invite.end_time with
      | some e =>
        dsimp only
        by_cases hlt : e < now
        · rw [if_pos (decide_eq_true hlt), hdup' .missed]
        · rw [if_neg (by simp [hlt])]
          by_cases hc : (check_conflicts cal st (some e) none).isEmpty
          · rw [if_pos hc, hdup' .pending]
          · rw [if_neg hc, hdup' .declined]
      | none =>
        dsimp only
        by_cases hc : (check_conflicts cal st none none).isEmpty
        · rw [if_pos hc, hdup' .pending]
          rfl
        · rw [if_neg hc, hdup' .declined]
          rfl

theorem process_invite_declined (cfg : SchedulerCfg) (spawnOk : Nat → Bool)
    {cal : Calendar} {now : Int} {invite : MeetingInvite} {st : Int}
    (h : invite.method ≠ "CANCEL") (hj : invite.join_url ≠ "")
    (hs : invite.start_time = some st)
    (hne : ∀ e, invite.end_time = some e → ¬(e < now))
    (hconf : check_conflicts cal st invite.end_time none ≠ [])
    (hf : ¬hasMsg cal invite.message_id) :
    process_invite cfg spawnOk cal now invite
      = (inserted_cal cal invite st .declined now,
          if cfg.send_rsvp then
            [Effect.rsvpDecline invite
              (conflict_reason (check_conflicts cal st invite.end_time none))]
          else []) := by
  unfold process_invite
  rw [if_neg h, if_neg hj, hs]
  dsimp only
  cases hend : invite.end_time with
  | some e =>
    dsimp only
    rw [hend] at hconf
    rw [if_neg (by simp [hne e hend])]
    have hconf' : ¬((check_conflicts cal st (some e) none).isEmpty = true) := by
      simp only [List.isEmpty_iff]
      exact hconf
    rw [if_neg hconf', add_meeting_invite_fresh hf st .declined now]
    rfl
  | none =>
    dsimp only
    rw [hend] at hconf
    rw [if_neg Bool.false_ne_true]
    have hconf' : ¬((check_conflicts cal st none none).isEmpty = true) := by
      simp only [List.isEmpty_iff]
      exact hconf
    rw [if_neg hconf', add_meeting_invite_fresh hf st .declined now]
    rfl

theorem sync_invite_step_declined (cfg : SchedulerCfg)
    {cal : Calendar} {now : Int} {invite : MeetingInvite} {st : Int}
    (h : invite.method ≠ "CANCEL") (hj : invite.join_url ≠ "")
    (hs : invite.start_time = some st)
    (hne : ∀ e, invite.end_time = some e → ¬(e < now))
    (hconf : check_conflicts cal st invite.end_time none ≠ [])
    (hf : ¬hasMsg cal invite.message_id) :
    sync_invite_step cfg cal now invite
      = (inserted_cal cal invite st .declined now,
          if cfg.send_rsvp then
            [Effect.rsvpDecline invite
              (conflict_reason (check_conflicts cal st invite.end_time none))]
          else []) := by
  unfold sync_invite_step
  rw [if_neg h, if_neg hj, hs]
  dsimp only
  cases hend : invite.end_time with
  | some e =>
    dsimp only
    rw [hend] at hconf
    rw [if_neg (by simp [hne e hend])]
    have hconf' : ¬((check_conflicts cal st (some e) none).isEmpty = true) := by
      simp only [List.isEmpty_iff]
      exact hconf
    rw [if_neg hconf', add_meeting_invite_fresh hf st .declined now]
    rfl
  | none =>
    dsimp only
    rw [hend] at hconf
    rw [if_neg Bool.false_ne_true]
    have hconf' : ¬((check_conflicts cal st none none).isEmpty = true) := by
      simp only [List.isEmpty_iff]
      exact hconf
    rw [if_neg hconf', add_meeting_invite_fresh hf st .declined now]
    rfl

theorem sync_invite_step_accepted (cfg : SchedulerCfg)
    {cal : Calendar} {now : Int} {invite : MeetingInvite} {st : Int}
    (h : invite.method ≠ "CANCEL") (hj : invite.join_url ≠ "")
    (hs : invite.start_time = some st)
    (hne : ∀ e, invite.end_time = some e → ¬(e < now))
    (hconf : check_conflicts cal st invite.end_time none = [])
    (hf : ¬hasMsg cal invite.message_id) :
    sync_invite_step cfg cal now invite
      = (inserted_cal cal invite st .pending now,
          if cfg.send_rsvp then [Effect.rsvpAccept invite] else []) := by
  unfold sync_invite_step
  rw [if_neg h, if_neg hj, hs]
  dsimp only
  cases hend : invite.end_time with
  | some e =>
    dsimp only
    rw [hend] at hconf
    rw [if_neg (by simp [hne e hend])]
    rw [if_pos (List.isEmpty_iff.mpr hconf), add_meeting_invite_fresh hf st .pending now]
    rfl
  | none =>
    dsimp only
    rw [hend] at hconf
    rw [if_neg Bool.false_ne_true]
    rw [if_pos (List.isEmpty_iff.mpr hconf), add_meeting_invite_fresh hf st .pending now]
    rfl

theorem process_invite_accepted (cfg : SchedulerCfg) (spawnOk : Nat → Bool)
    {cal : Calendar} {now : Int} {invite : MeetingInvite} {st : Int}
    (h : invite.method ≠ "CANCEL") (hj : invite.join_url ≠ "")
    (hs : invite.start_time = some st)
    (hne : ∀ e, invite.end_time = some e → ¬(e < now))
    (hconf : check_conflicts cal st invite.end_time none = [])
    (hf : ¬hasMsg cal invite.message_id) :
    ∃ didJoin : Bool,
      process_invite cfg spawnOk cal now invite
        = (if didJoin then
            ((check_and_join cfg spawnOk (inserted_cal cal invite st .pending now) now).1,
              (if cfg.send_rsvp then [Effect.rsvpAccept invite] else [])
                ++ (check_and_join cfg spawnOk (inserted_cal cal invite st .pending now) now).2)
          else
            (inserted_cal cal invite st .pending now,
              if cfg.send_rsvp then [Effect.rsvpAccept invite] else [])) := by
  unfold process_invite
  rw [if_neg h, if_neg hj, hs]
  dsimp only
  cases hend : invite.end_time with
  | some e =>
    dsimp only
    rw [hend] at hconf
    rw [if_neg (by simp [hne e hend])]
    rw [if_pos (List.isEmpty_iff.mpr hconf), add_meeting_invite_fresh hf st .pending now]
    dsimp only
    by_cases c1 : st - now < (cfg.join_before_minutes + 1) * 60 ∧ st - now ≥ 0
    · exact ⟨true, by rw [if_pos c1]; rfl⟩
    · rw [if_neg c1]
      by_cases c2 : st - now < 0
      · rw [if_pos c2]
        by_cases c3 : e > now
        · exact ⟨true, by rw [if_pos (decide_eq_true c3)]; rfl⟩
        · exact ⟨false, by rw [if_neg (by simp [c3])]; rfl⟩
      · exact ⟨false, by rw [if_neg c2]; rfl⟩
  | none =>
    dsimp only
    rw [hend] at hconf
    rw [if_neg Bool.false_ne_true]
    rw [if_pos (List.isEmpty_iff.mpr hconf), add_meeting_invite_fresh hf st .pending now]
    dsimp only
    by_cases c1 : st - now < (cfg.join_before_minutes + 1) * 60 ∧ st - now ≥ 0
    · exact ⟨true, by rw [if_pos c1]; rfl⟩
    · rw [if_neg c1]
      by_cases c2 : st - now < 0
      · exact ⟨true, by rw [if_pos c2]; rfl⟩
      · exact ⟨false, by rw [if_neg c2]; rfl⟩

theorem inserted_cal_msgIds (cal : Calendar) (invite : MeetingInvite) (st : Int)
    (status : Status) (now : Int) :
    msgIds (inserted_cal cal invite st status now) = msgIds cal ++ [invite.message_id] := by
  simp [inserted_cal, msgIds, stored_row, invite_to_meeting]

theorem hasMsg_inserted (cal : Calendar) (invite : MeetingInvite) (st : Int)
    (status : Status) (now : Int) :
    hasMsg (inserted_cal cal invite st status now) invite.message_id := by
  rw [hasMsg_iff_mem_msgIds, inserted_cal_msgIds]
  simp

theorem hasMsg_of_msgIds_eq {c1 c2 : Calendar} {x : String}
    (h : msgIds c1 = msgIds c2) (h2 : hasMsg c2 x) : hasMsg c1 x := by
  rw [hasMsg_iff_mem_msgIds] at h2 ⊢
  rw [h]
  exact h2

theorem rsvpOnly_append (l1 l2 : List Effect) :
    rsvpOnly (l1 ++ l2) = rsvpOnly l1 ++ rsvpOnly l2 := by
  simp [rsvpOnly]

theorem rsvpOnly_launches_nil {l : List Effect}
    (h : ∀ x ∈ l, ∃ mid, x = Effect.launch mid) : rsvpOnly l = [] := by
  induction l with
  | nil => rfl
  | cons a rest ih =>
    obtain ⟨mid, hm⟩ := h a (List.mem_cons_self a rest)
    subst hm
    unfold rsvpOnly
    rw [List.filter_cons]
    simp only [if_neg]
    exact ih (fun x hx => h x (List.mem_cons_of_mem _ hx))

/-- C5: for an actionable REQUEST whose window is not already past: a
non-empty conflict list makes both ingestion paths insert the record with
status declined and request a decline RSVP whose reason is built from the
conflict list (at most 3 titles, then a "+N more" suffix); an empty conflict
list makes them insert with status pending and request an accept RSVP; the
decision depends only on list non-emptiness. -/
theorem C5_conflict_policy :
    (∀ (cfg : SchedulerCfg) (spawnOk : Nat → Bool) (cal : Calendar) (now : Int)
        (invite : MeetingInvite) (st : Int),
      cfg.send_rsvp = true →
      invite.method ≠ "CANCEL" →
      invite.join_url ≠ "" →
      invite.start_time = some st →
      (∀ e, invite.end_time = some e → ¬(e < now)) →
      ¬hasMsg cal invite.message_id →
        (check_conflicts cal st invite.end_time none ≠ [] →
          (process_invite cfg spawnOk cal now invite
              = (inserted_cal cal invite st .declined now,
                  [Effect.rsvpDecline invite
                    (conflict_reason (check_conflicts cal st invite.end_time none))]) ∧
            sync_invite_step cfg cal now invite
              = (inserted_cal cal invite st .declined now,
                  [Effect.rsvpDecline invite
                    (conflict_reason (check_conflicts cal st invite.end_time none))]) ∧
            (stored_row cal invite st .declined now).status = .declined)) ∧
        (check_conflicts cal st invite.end_time none = [] →
          (sync_invite_step cfg cal now invite
              = (inserted_cal cal invite st .pending now, [Effect.rsvpAccept invite]) ∧
            (stored_row cal invite st .pending now).status = .pending ∧
            ∃ jeffs, (process_invite cfg spawnOk cal now invite).2
                = Effect.rsvpAccept invite :: jeffs ∧
              ∀ x ∈ jeffs, ∃ mid, x = Effect.launch mid))) ∧
    (∀ l : List Meeting, l.length ≤ 3 →
      conflict_reason l
        = "Scheduling conflict with: "
            ++ String.intercalate ", " (l.map (fun m => m.title))) ∧
    (∀ l : List Meeting, l.length > 3 →
      conflict_reason l
        = "Scheduling conflict with: "
            ++ String.intercalate ", " ((l.take 3).map (fun m => m.title))
            ++ " (+" ++ toString (l.length - 3) ++ " more)") := by
  refine ⟨?_, ?_, ?_⟩
  · intro cfg spawnOk cal now invite st hr h hj hs hne hf
    constructor
    · intro hconf
      have hd := process_invite_declined cfg spawnOk h hj hs hne hconf hf
      have hd2 := sync_invite_step_declined cfg h hj hs hne hconf hf
      rw [hr] at hd hd2
      simp only [if_pos] at hd hd2
      exact ⟨hd, hd2, rfl⟩
    · intro hconf
      have ha2 := sync_invite_step_accepted cfg h hj hs hne hconf hf
      rw [hr] at ha2
      simp only [if_pos] at ha2
      refine ⟨ha2, rfl, ?_⟩
      obtain ⟨dj, hpi⟩ := process_invite_accepted cfg spawnOk h hj hs hne hconf hf
      rw [hpi]
      cases dj with
      | true =>
        rw [if_pos rfl, hr]
        exact ⟨(check_and_join cfg spawnOk
            (inserted_cal cal invite st .pending now) now).2, rfl,
          check_and_join_effects cfg spawnOk _ now⟩
      | false =>
        rw [if_neg Bool.false_ne_true, hr]
        exact ⟨[], rfl, fun x hx => absurd hx (List.not_mem_nil x)⟩
  · intro l hl
    simp only [conflict_reason]
    rw [if_neg (by omega), List.take_of_length_le hl]
  · intro l hl
    simp only [conflict_reason]
    rw [if_pos hl]
    simp [String.append_assoc]

theorem C5_conflict_policy_witness :
    process_invite ⟨true, 1⟩ (fun _ => true) calA 36000 inviteOverlap
      = (inserted_cal calA inviteOverlap 37800 .declined 36000,
          [Effect.rsvpDecline inviteOverlap
            (conflict_reason (check_conflicts calA 37800 none none))]) :=
  ((C5_conflict_policy.1 ⟨true, 1⟩ (fun _ => true) calA 36000 inviteOverlap 37800
      rfl (by decide) (by decide) rfl
      (fun e he => by simp [inviteOverlap] at he)
      (by unfold hasMsg; decide)).1 (by decide)).1

/-- C2: ingestion is idempotent on the ingestion key: redelivering a known
message id is a complete no-op, a second ingestion of any non-CANCEL invite
changes nothing and sends nothing, one ingestion performs at most one RSVP
send, and one ingestion stores at most one new copy of the key. -/
theorem C2_idempotent_ingestion :
    ∀ (cfg : SchedulerCfg) (spawnOk spawnOk2 : Nat → Bool) (cal : Calendar)
      (now now2 : Int) (invite : MeetingInvite),
      invite.method ≠ "CANCEL" →
        (hasMsg cal invite.message_id →
          process_invite cfg spawnOk cal now invite = (cal, [])) ∧
        process_invite cfg spawnOk2 (process_invite cfg spawnOk cal now invite).1
            now2 invite
          = ((process_invite cfg spawnOk cal now invite).1, []) ∧
        (rsvpOnly (process_invite cfg spawnOk cal now invite).2).length ≤ 1 ∧
        (msgIds (process_invite cfg spawnOk cal now invite).1).count invite.message_id
          ≤ (msgIds cal).count invite.message_id + 1 := by
  intro cfg spawnOk spawnOk2 cal now now2 invite h
  refine ⟨fun hd => process_invite_dup h hd, ?_⟩
  by_cases hj : invite.join_url = ""
  · rw [process_invite_skip_url h hj]
    rw [process_invite_skip_url h hj]
    exact ⟨rfl, by simp [rsvpOnly], Nat.le_succ _⟩
  cases hst : invite.start_time with
  | none =>
    rw [process_invite_skip_start h hj hst]
    rw [process_invite_skip_start h hj hst]
    exact ⟨rfl, by simp [rsvpOnly], Nat.le_succ _⟩
  | some st =>
    by_cases hd : hasMsg cal invite.message_id
    · rw [process_invite_dup h hd]
      rw [process_invite_dup h hd]
      exact ⟨rfl, by simp [rsvpOnly], Nat.le_succ _⟩
    · by_cases hended : ∃ e, invite.end_time = some e ∧ e < now
      · obtain ⟨e, he, hlt⟩ := hended
        rw [process_invite_missed h hj hst he hlt hd]
        dsimp only
        have hins : hasMsg (inserted_cal cal invite st .missed now)
            invite.message_id := hasMsg_inserted cal invite st .missed now
        refine ⟨process_invite_dup h hins, by simp [rsvpOnly], ?_⟩
        show (msgIds (inserted_cal cal invite st .missed now)).count invite.message_id
          ≤ (msgIds cal).count invite.message_id + 1
        rw [inserted_cal_msgIds, List.count_append]
        simp
      · have hne : ∀ e, invite.end_time = some e → ¬(e < now) := by
          intro e he hlt
          exact hended ⟨e, he, hlt⟩
        by_cases hconf : check_conflicts cal st invite.end_time none = []
        · obtain ⟨dj, hpi⟩ := process_invite_accepted cfg spawnOk h hj hst hne hconf hd
          rw [hpi]
          cases dj with
          | true =>
            rw [if_pos rfl]
            dsimp only
            have hmsg1 : msgIds (check_and_join cfg spawnOk
                (inserted_cal cal invite st .pending now) now).1
                = msgIds cal ++ [invite.message_id] := by
              rw [check_and_join_msgIds, inserted_cal_msgIds]
            have hins : hasMsg (check_and_join cfg spawnOk
                (inserted_cal cal invite st .pending now) now).1
                invite.message_id := by
              rw [hasMsg_iff_mem_msgIds, hmsg1]
              simp
            refine ⟨process_invite_dup h hins, ?_, ?_⟩
            · show (rsvpOnly ((if cfg.send_rsvp then [Effect.rsvpAccept invite] else [])
                ++ (check_and_join cfg spawnOk
                  (inserted_cal cal invite st .pending now) now).2)).length ≤ 1
              rw [rsvpOnly_append,
                rsvpOnly_launches_nil (check_and_join_effects cfg spawnOk _ now)]
              cases hr : cfg.send_rsvp <;> simp [rsvpOnly]
            · show (msgIds (check_and_join cfg spawnOk
                (inserted_cal cal invite st .pending now) now).1).count invite.message_id
                ≤ (msgIds cal).count invite.message_id + 1
              rw [hmsg1, List.count_append]
              simp
          | false =>
            rw [if_neg Bool.false_ne_true]
            dsimp only
            have hins : hasMsg (inserted_cal cal invite st .pending now)
                invite.message_id := hasMsg_inserted cal invite st .pending now
            refine ⟨process_invite_dup h hins, ?_, ?_⟩
            · cases hr : cfg.send_rsvp <;> simp [rsvpOnly]
            · show (msgIds (inserted_cal cal invite st .pending now)).count
                invite.message_id ≤ (msgIds cal).count invite.message_id + 1
              rw [inserted_cal_msgIds, List.count_append]
              simp
        · rw [process_invite_declined cfg spawnOk h hj hst hne hconf hd]
          dsimp only
          have hins : hasMsg (inserted_cal cal invite st .declined now)
              invite.message_id := hasMsg_inserted cal invite st .declined now
          refine ⟨process_invite_dup h hins, ?_, ?_⟩
          · cases hr : cfg.send_rsvp <;> simp [rsvpOnly]
          · show (msgIds (inserted_cal cal invite st .declined now)).count
              invite.message_id ≤ (msgIds cal).count invite.message_id + 1
            rw [inserted_cal_msgIds, List.count_append]
            simp

theorem C2_idempotent_ingestion_witness :
    process_invite ⟨true, 1⟩ (fun _ => true)
        (process_invite ⟨true, 1⟩ (fun _ => true) ⟨[], 1⟩ 0 inviteFresh).1 0 inviteFresh
      = ((process_invite ⟨true, 1⟩ (fun _ => true) ⟨[], 1⟩ 0 inviteFresh).1, []) :=
  (C2_idempotent_ingestion ⟨true, 1⟩ (fun _ => true) (fun _ => true) ⟨[], 1⟩ 0 0
    inviteFresh (by decide)).2.1

theorem find?_id_map (g : Meeting → Meeting) (hg : ∀ r, (g r).id = r.id) (j : Nat) :
    ∀ l : List Meeting,
      (l.map g).find? (fun r => r.id == j) = (l.find? (fun r => r.id == j)).map g := by
  intro l
  induction l with
  | nil => rfl
  | cons a rest ih =>
    simp only [List.map_cons, List.find?]
    rw [hg a]
    cases h : (a.id == j)
    · simp only [ih]
    · rfl

theorem find?_id_of_mem_nodup : ∀ (l : List Meeting),
    (l.map (fun r => r.id)).Nodup →
    ∀ r ∈ l, l.find? (fun x => x.id == r.id) = some r := by
  intro l
  induction l with
  | nil => intro _ r hr; cases hr
  | cons a rest ih =>
    intro hnd r hr
    rw [List.map_cons, List.nodup_cons] at hnd
    simp only [List.find?]
    cases h : (a.id == r.id)
    · have hne : a.id ≠ r.id := by simpa using h
      rcases List.mem_cons.mp hr with h1 | h1
      · exact absurd (congrArg (fun x => x.id) h1.symm) hne
      · exact ih hnd.2 r h1
    · have hid : a.id = r.id := by simpa using h
      rcases List.mem_cons.mp hr with h1 | h1
      · exact congrArg some h1.symm
      · exact absurd (hid ▸ List.mem_map_of_mem (fun x => x.id) h1) hnd.1

theorem rowStatus_of_mem {cal : Calendar} (hW : WF cal) {r : Meeting}
    (hr : r ∈ cal.rows) : rowStatus cal r.id = some r.status := by
  unfold rowStatus
  rw [find?_id_of_mem_nodup cal.rows hW.2 r hr]
  rfl

theorem rowStatus_update (cal : Calendar) (i j : Nat) (s : Status) :
    rowStatus (update_status cal i s) j
      = (rowStatus cal j).map (fun old => if j = i then s else old) := by
  unfold rowStatus update_status
  dsimp only
  rw [find?_id_map (fun r => if r.id = i then { r with status := s } else r)
    (fun r => by by_cases h : r.id = i <;> simp [h]) j]
  cases hf : cal.rows.find? (fun r => r.id == j) with
  | none => rfl
  | some r =>
    have hid : r.id = j := by simpa using List.find?_some hf
    by_cases h : j = i <;> simp [hid, h]

theorem find?_append_of_some {l1 l2 : List Meeting} {p : Meeting → Bool} {r : Meeting}
    (h : l1.find? p = some r) : (l1 ++ l2).find? p = some r := by
  induction l1 with
  | nil => cases h
  | cons a rest ih =>
    rw [List.cons_append]
    simp only [List.find?] at h ⊢
    cases hp : p a
    · rw [hp] at h
      exact ih h
    · rw [hp] at h
      exact h

theorem inserted_cal_rowStatus {cal : Calendar} {j : Nat} {s : Status}
    (invite : MeetingInvite) (st : Int) (status : Status) (now : Int)
    (h : rowStatus cal j = some s) :
    rowStatus (inserted_cal cal invite st status now) j = some s := by
  unfold rowStatus at h ⊢
  unfold inserted_cal
  dsimp only
  cases hf : cal.rows.find? (fun r => r.id == j) with
  | none => rw [hf] at h; cases h
  | some r =>
    rw [hf] at h
    rw [find?_append_of_some hf]
    exact h

theorem WF_update {cal : Calendar} (hW : WF cal) (i : Nat) (s : Status) :
    WF (update_status cal i s) := by
  obtain ⟨hb, hnd⟩ := hW
  constructor
  · intro r hr
    obtain ⟨r0, hr0, hr0e⟩ := List.mem_map.mp hr
    have : r.id = r0.id := by
      rw [← hr0e]
      by_cases h : r0.id = i <;> simp [h]
    rw [show (update_status cal i s).nextId = cal.nextId from rfl, this]
    exact hb r0 hr0
  · rw [update_status_ids]
    exact hnd

theorem WF_inserted {cal : Calendar} (hW : WF cal) (invite : MeetingInvite)
    (st : Int) (status : Status) (now : Int) :
    WF (inserted_cal cal invite st status now) := by
  obtain ⟨hb, hnd⟩ := hW
  constructor
  · intro r hr
    rcases List.mem_append.mp hr with h | h
    · exact Nat.lt_succ_of_lt (hb r h)
    · rw [List.mem_singleton.mp h]
      exact Nat.lt_succ_self _
  · rw [show (inserted_cal cal invite st status now).rows
      = cal.rows ++ [stored_row cal invite st status now] from rfl,
      List.map_append, List.nodup_append]
    refine ⟨hnd, List.nodup_singleton _, ?_⟩
    intro x hx hx2
    have : x = cal.nextId := by simpa [stored_row] using hx2
    obtain ⟨r0, hr0, hr0e⟩ := List.mem_map.mp hx
    have := hb r0 hr0
    omega

theorem trigger_join_rowStatus (cal : Calendar) (m : Meeting) (ok : Bool) (j : Nat) :
    rowStatus (trigger_join cal m ok).1 j
      = (rowStatus cal j).map
          (fun old => if j = m.id then (if ok then .bot_spawned else .spawn_failed)
            else old) := by
  cases ok with
  | false =>
    have he : (trigger_join cal m false).1
        = update_status (update_status cal m.id .joining) m.id .spawn_failed := rfl
    rw [he, rowStatus_update, rowStatus_update, Option.map_map]
    congr 1
    funext old
    by_cases h : j = m.id <;> simp [h]
  | true =>
    have he : (trigger_join cal m true).1
        = update_status (update_status cal m.id .joining) m.id .bot_spawned := rfl
    rw [he, rowStatus_update, rowStatus_update, Option.map_map]
    congr 1
    funext old
    by_cases h : j = m.id <;> simp [h]

theorem WF_trigger {cal : Calendar} (hW : WF cal) (m : Meeting) (ok : Bool) :
    WF (trigger_join cal m ok).1 := by
  cases ok with
  | false => exact WF_update (WF_update hW m.id .joining) m.id .spawn_failed
  | true => exact WF_update (WF_update hW m.id .joining) m.id .bot_spawned

theorem fold_trigger_rowStatus (spawnOk : Nat → Bool) (cal0 : Calendar) (j : Nat)
    (s : Status) (hs0 : rowStatus cal0 j = some s) :
    ∀ (ms : List Meeting) (acc : Calendar × List Effect),
      (∀ m ∈ ms, rowStatus cal0 m.id = some .pending) →
      (rowStatus acc.1 j = some s ∨
        (s = .pending ∧ (rowStatus acc.1 j = some .joining ∨
          rowStatus acc.1 j = some .bot_spawned ∨
          rowStatus acc.1 j = some .spawn_failed))) →
      (rowStatus (ms.foldl
          (fun acc m =>
            let r := trigger_join acc.1 m (spawnOk m.id)
            (r.1, acc.2 ++ r.2)) acc).1 j = some s ∨
        (s = .pending ∧ (rowStatus (ms.foldl
          (fun acc m =>
            let r := trigger_join acc.1 m (spawnOk m.id)
            (r.1, acc.2 ++ r.2)) acc).1 j = some .joining ∨
          rowStatus (ms.foldl
          (fun acc m =>
            let r := trigger_join acc.1 m (spawnOk m.id)
            (r.1, acc.2 ++ r.2)) acc).1 j = some .bot_spawned ∨
          rowStatus (ms.foldl
          (fun acc m =>
            let r := trigger_join acc.1 m (spawnOk m.id)
            (r.1, acc.2 ++ r.2)) acc).1 j = some .spawn_failed))) := by
  intro ms
  induction ms with
  | nil => intro acc _ hP; exact hP
  | cons m rest ih =>
    intro acc hms hP
    rw [List.foldl_cons]
    apply ih _ (fun m' hm' => hms m' (List.mem_cons_of_mem _ hm'))
    have hv : ∃ v, rowStatus acc.1 j = some v := by
      rcases hP with hP | ⟨_, hP | hP | hP⟩ <;> exact ⟨_, by assumption⟩
    obtain ⟨v, hvv⟩ := hv
    by_cases hj : j = m.id
    · have hsp : s = .pending := by
        have hm := hms m (List.mem_cons_self m rest)
        rw [hj] at hs0
        rw [hm] at hs0
        exact (Option.some_inj.mp hs0).symm
      right
      refine ⟨hsp, ?_⟩
      show rowStatus (trigger_join acc.1 m (spawnOk m.id)).1 j = some .joining ∨
        rowStatus (trigger_join acc.1 m (spawnOk m.id)).1 j = some .bot_spawned ∨
        rowStatus (trigger_join acc.1 m (spawnOk m.id)).1 j = some .spawn_failed
      rw [trigger_join_rowStatus, hvv]
      cases hok : spawnOk m.id <;> simp [hj]
    · show rowStatus (trigger_join acc.1 m (spawnOk m.id)).1 j = some s ∨
        (s = .pending ∧ (rowStatus (trigger_join acc.1 m (spawnOk m.id)).1 j
            = some .joining ∨
          rowStatus (trigger_join acc.1 m (spawnOk m.id)).1 j = some .bot_spawned ∨
          rowStatus (trigger_join acc.1 m (spawnOk m.id)).1 j = some .spawn_failed))
      have hkeep : rowStatus (trigger_join acc.1 m (spawnOk m.id)).1 j
          = rowStatus acc.1 j := by
        rw [trigger_join_rowStatus, hvv]
        simp [hj]
      rw [hkeep]
      exact hP

theorem check_and_join_rowStatus (cfg : SchedulerCfg) (spawnOk : Nat → Bool)
    {cal : Calendar} (now : Int) (hW : WF cal) {j : Nat} {s : Status}
    (h : rowStatus cal j = some s) :
    rowStatus (check_and_join cfg spawnOk cal now).1 j = some s ∨
      (s = .pending ∧
        (rowStatus (check_and_join cfg spawnOk cal now).1 j = some .joining ∨
          rowStatus (check_and_join cfg spawnOk cal now).1 j = some .bot_spawned ∨
          rowStatus (check_and_join cfg spawnOk cal now).1 j = some .spawn_failed)) := by
  unfold check_and_join
  apply fold_trigger_rowStatus spawnOk cal j s h
  · intro m hm
    have hmem := (mem_get_upcoming_iff cal now (cfg.join_before_minutes + 1) m).mp hm
    have := rowStatus_of_mem hW hmem.1
    rw [this, hmem.2.1]
  · exact Or.inl h

theorem fold_trigger_WF (spawnOk : Nat → Bool) :
    ∀ (ms : List Meeting) (acc : Calendar × List Effect), WF acc.1 →
      WF (ms.foldl
        (fun acc m =>
          let r := trigger_join acc.1 m (spawnOk m.id)
          (r.1, acc.2 ++ r.2)) acc).1 := by
  intro ms
  induction ms with
  | nil => intro acc h; exact h
  | cons m rest ih =>
    intro acc h
    rw [List.foldl_cons]
    exact ih _ (WF_trigger h m (spawnOk m.id))

theorem check_and_join_WF (cfg : SchedulerCfg) (spawnOk : Nat → Bool)
    {cal : Calendar} (now : Int) (hW : WF cal) :
    WF (check_and_join cfg spawnOk cal now).1 :=
  fold_trigger_WF spawnOk (check_upcoming cfg cal now) (cal, []) hW

theorem handle_cancellation_rowStatus {cal : Calendar} (invite : MeetingInvite)
    (hW : WF cal) {j : Nat} {s : Status} (h : rowStatus cal j = some s) :
    rowStatus (handle_cancellation cal invite) j = some s ∨
      (rowStatus (handle_cancellation cal invite) j = some .cancelled ∧
        s ≠ .cancelled ∧ s ≠ .completed) := by
  unfold handle_cancellation
  by_cases hu : invite.uid = ""
  · rw [if_pos hu]
    exact Or.inl h
  · rw [if_neg hu]
    cases hg : get_by_uid cal invite.uid with
    | none => exact Or.inl h
    | some ex =>
      dsimp only
      by_cases hs : ex.status = .cancelled ∨ ex.status = .completed
      · rw [if_pos hs]
        exact Or.inl h
      · rw [if_neg hs]
        rw [rowStatus_update, h]
        by_cases hj : j = ex.id
        · right
          have hexm := (get_by_uid_spec hg).1
          have : rowStatus cal ex.id = some ex.status := rowStatus_of_mem hW hexm
          rw [hj] at h
          rw [h] at this
          have hse : s = ex.status := Option.some_inj.mp this
          push_neg at hs
          exact ⟨by simp [hj], hse ▸ hs.1, hse ▸ hs.2⟩
        · exact Or.inl (by simp [hj])

theorem handle_cancellation_WF {cal : Calendar} (invite : MeetingInvite)
    (hW : WF cal) : WF (handle_cancellation cal invite) := by
  unfold handle_cancellation
  by_cases hu : invite.uid = ""
  · rw [if_pos hu]
    exact hW
  · rw [if_neg hu]
    cases hg : get_by_uid cal invite.uid with
    | none => exact hW
    | some ex =>
      dsimp only
      by_cases hs : ex.status = .cancelled ∨ ex.status = .completed
      · rw [if_pos hs]
        exact hW
      · rw [if_neg hs]
        exact WF_update hW ex.id .cancelled

theorem process_invite_rowStatus (cfg : SchedulerCfg) (spawnOk : Nat → Bool)
    {cal : Calendar} (now : Int) (invite : MeetingInvite) (hW : WF cal)
    {j : Nat} {s : Status} (h : rowStatus cal j = some s) :
    ∃ s', rowStatus (process_invite cfg spawnOk cal now invite).1 j = some s' ∧
      Relation.ReflTransGen AllowedStep s s' := by
  by_cases hm : invite.method = "CANCEL"
  · have hpi : process_invite cfg spawnOk cal now invite
        = (handle_cancellation cal invite, []) := by
      unfold process_invite
      rw [if_pos hm]
    rw [hpi]
    rcases handle_cancellation_rowStatus invite hW h with h1 | ⟨h1, h2, h3⟩
    · exact ⟨s, h1, .refl⟩
    · exact ⟨.cancelled, h1, .single (.cancel s h2 h3)⟩
  · by_cases hj : invite.join_url = ""
    · rw [process_invite_skip_url hm hj]
      exact ⟨s, h, .refl⟩
    cases hst : invite.start_time with
    | none =>
      rw [process_invite_skip_start hm hj hst]
      exact ⟨s, h, .refl⟩
    | some st =>
      by_cases hd : hasMsg cal invite.message_id
      · rw [process_invite_dup hm hd]
        exact ⟨s, h, .refl⟩
      · by_cases hended : ∃ e, invite.end_time = some e ∧ e < now
        · obtain ⟨e, he, hlt⟩ := hended
          rw [process_invite_missed hm hj hst he hlt hd]
          exact ⟨s, inserted_cal_rowStatus invite st .missed now h, .refl⟩
        · have hne : ∀ e, invite.end_time = some e → ¬(e < now) :=
            fun e he hlt => hended ⟨e, he, hlt⟩
          by_cases hconf : check_conflicts cal st invite.end_time none = []
          · obtain ⟨dj, hpi⟩ := process_invite_accepted cfg spawnOk hm hj hst hne hconf hd
            rw [hpi]
            cases dj with
            | false =>
              rw [if_neg Bool.false_ne_true]
              exact ⟨s, inserted_cal_rowStatus invite st .pending now h, .refl⟩
            | true =>
              rw [if_pos rfl]
              have hins := inserted_cal_rowStatus invite st .pending now h
              have hWins := WF_inserted hW invite st .pending now
              rcases check_and_join_rowStatus cfg spawnOk now hWins hins
                with h1 | ⟨hsp, h1 | h1 | h1⟩
              · exact ⟨s, h1, .refl⟩
              · subst hsp
                exact ⟨.joining, h1, .single .start_join⟩
              · subst hsp
                exact ⟨.bot_spawned, h1,
                  (Relation.ReflTransGen.single AllowedStep.start_join).tail
                    AllowedStep.spawn_ok⟩
              · subst hsp
                exact ⟨.spawn_failed, h1,
                  (Relation.ReflTransGen.single AllowedStep.start_join).tail
                    AllowedStep.spawn_fail⟩
          · rw [process_invite_declined cfg spawnOk hm hj hst hne hconf hd]
            exact ⟨s, inserted_cal_rowStatus invite st .declined now h, .refl⟩

theorem sync_invite_step_rowStatus (cfg : SchedulerCfg)
    {cal : Calendar} (now : Int) (invite : MeetingInvite) (hW : WF cal)
    {j : Nat} {s : Status} (h : rowStatus cal j = some s) :
    ∃ s', rowStatus (sync_invite_step cfg cal now invite).1 j = some s' ∧
      Relation.ReflTransGen AllowedStep s s' := by
  by_cases hm : invite.method = "CANCEL"
  · have hpi : sync_invite_step cfg cal now invite
        = (handle_cancellation cal invite, []) := by
      unfold sync_invite_step
      rw [if_pos hm]
    rw [hpi]
    rcases handle_cancellation_rowStatus invite hW h with h1 | ⟨h1, h2, h3⟩
    · exact ⟨s, h1, .refl⟩
    · exact ⟨.cancelled, h1, .single (.cancel s h2 h3)⟩
  · by_cases hj : invite.join_url = ""
    · rw [sync_invite_step_skip_url hm hj]
      exact ⟨s, h, .refl⟩
    cases hst : invite.start_time with
    | none =>
      rw [sync_invite_step_skip_start hm hj hst]
      exact ⟨s, h, .refl⟩
    | some st =>
      by_cases hd : hasMsg cal invite.message_id
      · rw [sync_invite_step_dup hm hd]
        exact ⟨s, h, .refl⟩
      · by_cases hended : ∃ e, invite.end_time = some e ∧ e < now
        · obtain ⟨e, he, hlt⟩ := hended
          rw [sync_invite_step_missed hm hj hst he hlt hd]
          exact ⟨s, inserted_cal_rowStatus invite st .missed now h, .refl⟩
        · have hne : ∀ e, invite.end_time = some e → ¬(e < now) :=
            fun e he hlt => hended ⟨e, he, hlt⟩
          by_cases hconf : check_conflicts cal st invite.end_time none = []
          · rw [sync_invite_step_accepted cfg hm hj hst hne hconf hd]
            exact ⟨s, inserted_cal_rowStatus invite st .pending now h, .refl⟩
          · rw [sync_invite_step_declined cfg hm hj hst hne hconf hd]
            exact ⟨s, inserted_cal_rowStatus invite st .declined now h, .refl⟩

theorem process_invite_WF (cfg : SchedulerCfg) (spawnOk : Nat → Bool)
    {cal : Calendar} (now : Int) (invite : MeetingInvite) (hW : WF cal) :
    WF (process_invite cfg spawnOk cal now invite).1 := by
  by_cases hm : invite.method = "CANCEL"
  · have hpi : process_invite cfg spawnOk cal now invite
        = (handle_cancellation cal invite, []) := by
      unfold process_invite
      rw [if_pos hm]
    rw [hpi]
    exact handle_cancellation_WF invite hW
  · by_cases hj : invite.join_url = ""
    · rw [process_invite_skip_url hm hj]
      exact hW
    cases hst : invite.start_time with
    | none =>
      rw [process_invite_skip_start hm hj hst]
      exact hW
    | some st =>
      by_cases hd : hasMsg cal invite.message_id
      · rw [process_invite_dup hm hd]
        exact hW
      · by_cases hended : ∃ e, invite.end_time = some e ∧ e < now
        · obtain ⟨e, he, hlt⟩ := hended
          rw [process_invite_missed hm hj hst he hlt hd]
          exact WF_inserted hW invite st .missed now
        · have hne : ∀ e, invite.end_time = some e → ¬(e < now) :=
            fun e he hlt => hended ⟨e, he, hlt⟩
          by_cases hconf : check_conflicts cal st invite.end_time none = []
          · obtain ⟨dj, hpi⟩ := process_invite_accepted cfg spawnOk hm hj hst hne hconf hd
            rw [hpi]
            cases dj with
            | false =>
              rw [if_neg Bool.false_ne_true]
              exact WF_inserted hW invite st .pending now
            | true =>
              rw [if_pos rfl]
              exact check_and_join_WF cfg spawnOk now
                (WF_inserted hW invite st .pending now)
          · rw [process_invite_declined cfg spawnOk hm hj hst hne hconf hd]
            exact WF_inserted hW invite st .declined now

theorem sync_invite_step_WF (cfg : SchedulerCfg)
    {cal : Calendar} (now : Int) (invite : MeetingInvite) (hW : WF cal) :
    WF (sync_invite_step cfg cal now invite).1 := by
  by_cases hm : invite.method = "CANCEL"
  · have hpi : sync_invite_step cfg cal now invite
        = (handle_cancellation cal invite, []) := by
      unfold sync_invite_step
      rw [if_pos hm]
    rw [hpi]
    exact handle_cancellation_WF invite hW
  · by_cases hj : invite.join_url = ""
    · rw [sync_invite_step_skip_url hm hj]
      exact hW
    cases hst : invite.start_time with
    | none =>
      rw [sync_invite_step_skip_start hm hj hst]
      exact hW
    | some st =>
      by_cases hd : hasMsg cal invite.message_id
      · rw [sync_invite_step_dup hm hd]
        exact hW
      · by_cases hended : ∃ e, invite.end_time = some e ∧ e < now
        · obtain ⟨e, he, hlt⟩ := hended
          rw [sync_invite_step_missed hm hj hst he hlt hd]
          exact WF_inserted hW invite st .missed now
        · have hne : ∀ e, invite.end_time = some e → ¬(e < now) :=
            fun e he hlt => hended ⟨e, he, hlt⟩
          by_cases hconf : check_conflicts cal st invite.end_time none = []
          · rw [sync_invite_step_accepted cfg hm hj hst hne hconf hd]
            exact WF_inserted hW invite st .pending now
          · rw [sync_invite_step_declined cfg hm hj hst hne hconf hd]
            exact WF_inserted hW invite st .declined now

theorem apply_op_rowStatus (cfg : SchedulerCfg) (spawnOk : Nat → Bool)
    {cal : Calendar} (op : EngineOp) (hW : WF cal)
    {j : Nat} {s : Status} (h : rowStatus cal j = some s) :
    ∃ s', rowStatus (apply_op cfg spawnOk cal op) j = some s' ∧
      Relation.ReflTransGen AllowedStep s s' := by
  cases op with
  | ingest now invite => exact process_invite_rowStatus cfg spawnOk now invite hW h
  | syncOne now invite => exact sync_invite_step_rowStatus cfg now invite hW h
  | scan now =>
    rcases check_and_join_rowStatus cfg spawnOk now hW h with h1 | ⟨hsp, h1 | h1 | h1⟩
    · exact ⟨s, h1, .refl⟩
    · subst hsp
      exact ⟨.joining, h1, .single .start_join⟩
    · subst hsp
      exact ⟨.bot_spawned, h1,
        (Relation.ReflTransGen.single AllowedStep.start_join).tail AllowedStep.spawn_ok⟩
    · subst hsp
      exact ⟨.spawn_failed, h1,
        (Relation.ReflTransGen.single AllowedStep.start_join).tail AllowedStep.spawn_fail⟩

theorem apply_op_WF (cfg : SchedulerCfg) (spawnOk : Nat → Bool)
    {cal : Calendar} (op : EngineOp) (hW : WF cal) :
    WF (apply_op cfg spawnOk cal op) := by
  cases op with
  | ingest now invite => exact process_invite_WF cfg spawnOk now invite hW
  | syncOne now invite => exact sync_invite_step_WF cfg now invite hW
  | scan now => exact check_and_join_WF cfg spawnOk now hW

theorem apply_ops_rowStatus (cfg : SchedulerCfg) (spawnOk : Nat → Bool) :
    ∀ (ops : List EngineOp) (cal : Calendar) (j : Nat) (s : Status), WF cal →
      rowStatus cal j = some s →
      ∃ s', rowStatus (apply_ops cfg spawnOk ops cal) j = some s' ∧
        Relation.ReflTransGen AllowedStep s s' := by
  intro ops
  induction ops with
  | nil => intro cal j s _ h; exact ⟨s, h, .refl⟩
  | cons op rest ih =>
    intro cal j s hW h
    obtain ⟨s1, h1, hc1⟩ := apply_op_rowStatus cfg spawnOk op hW h
    obtain ⟨s', h', hc2⟩ := ih (apply_op cfg spawnOk cal op) j s1
      (apply_op_WF cfg spawnOk op hW) h1
    exact ⟨s', h', hc1.trans hc2⟩

/-- C3 (amended): every status change performed by any sequence of engine
operations on an existing row is a chain of allowed steps: pending → joining
→ {bot_spawned (the success state the spec calls "joined"), spawn_failed},
plus s → cancelled for ANY s other than cancelled and completed — so
cancellation handling may leave the otherwise-terminal statuses missed,
declined, bot_spawned and spawn_failed; apart from that, no operation leaves
them, nothing ever leaves cancelled or completed, and on join-trigger success
the row ends in bot_spawned. -/
theorem C3_lifecycle_amended :
    (∀ (cfg : SchedulerCfg) (spawnOk : Nat → Bool) (ops : List EngineOp)
        (cal : Calendar) (j : Nat) (s s' : Status),
      WF cal → rowStatus cal j = some s →
      rowStatus (apply_ops cfg spawnOk ops cal) j = some s' →
      Relation.ReflTransGen AllowedStep s s') ∧
    (∀ (cal : Calendar) (m : Meeting) (s : Status),
      rowStatus cal m.id = some s →
      rowStatus (trigger_join cal m true).1 m.id = some .bot_spawned) := by
  constructor
  · intro cfg spawnOk ops cal j s s' hW h h'
    obtain ⟨s1, h1, hc⟩ := apply_ops_rowStatus cfg spawnOk ops cal j s hW h
    rw [h1] at h'
    exact (Option.some_inj.mp h') ▸ hc
  · intro cal m s h
    rw [trigger_join_rowStatus, h]
    simp

theorem C3_lifecycle_amended_witness :
    Relation.ReflTransGen AllowedStep .pending .bot_spawned :=
  C3_lifecycle_amended.1 ⟨true, 1⟩ (fun _ => true) [.scan 36000] calA 1
    .pending .bot_spawned (by unfold WF; exact ⟨by decide, by decide⟩)
    (by decide) (by decide)

/-- C3 counterexample: the claim's terminal monotonicity is false on the code.
A record in the terminal status missed is moved to cancelled by ingesting a
CANCEL for its uid (the guard in _handle_cancellation only exempts cancelled
and completed), so cancelled is reachable from missed — not only from pending
or joining — and a sequence of operations does move a record out of a
terminal status. -/
theorem C3_missed_record_leaves_terminal :
    meetMissed.status = .missed ∧
    rowStatus calMissed 1 = some .missed ∧
    rowStatus (apply_ops ⟨true, 1⟩ (fun _ => true) [.ingest 0 cancelA] calMissed) 1
      = some .cancelled :=
  ⟨rfl, by decide, by decide⟩

end CCPM
